import Mathlib

/-!
# Verification of the `tradeforyou` trading-agent repository

A shallow embedding of the pieces of the repository that the specification's
claims are about:

* the Action Extractor (`AIBroker.extract_action_from_response`,
  `src/alpaca_trader/broker/ai_broker.py`), including a faithful model of the
  Python `re.search` semantics for the fixed regular-expression patterns the
  source uses;
* the Action Dispatcher (`AIBroker.execute_actions`);
* the order builders (`OrderManager` in `src/alpaca_trader/core/orders.py`
  and `AIBroker.buy_stock`);
* the brokerage client (`AlpacaClient` in `src/alpaca_trader/core/client.py`);
* the market-data normalizer (`AIBroker.get_market_data`);
* the credential encryption round trip (`ConfigManager` in
  `src/alpaca_trader/utils/config.py`), with the AES block cipher itself
  (an external library) kept abstract;
* `ConfigManager.get_alpaca_credentials`.

External effects (HTTP, the data SDK, the block cipher) are modelled as
explicit environments; every operation that performs I/O also returns the
trace of requests it attempted, so that "no network call is made" is a
provable statement.
-/

namespace TradeForYou

/-! ## Python string helpers

`isPySpace` is the ASCII part of Python's `str.isspace` / regex `\s`,
which is all that the repository's inputs exercise. -/

def isPySpace (c : Char) : Bool :=
  c = ' ' || c = '\t' || c = '\n' || c = '\r' || c = Char.ofNat 11 || c = Char.ofNat 12

/-- Python `str.strip()` on a list of characters. -/
def pyStripList (s : List Char) : List Char :=
  ((s.dropWhile isPySpace).reverse.dropWhile isPySpace).reverse

/-- Python `str.strip()`. -/
def pyStrip (s : String) : String := ⟨pyStripList s.data⟩

/-- The quote characters stripped by `.strip('"\'')` in the extractor. -/
def isQuoteChar (c : Char) : Bool := c = '"' || c = Char.ofNat 39

/-- Python `str.strip('"\'')` on a list of characters. -/
def stripQuotes (s : List Char) : List Char :=
  ((s.dropWhile isQuoteChar).reverse.dropWhile isQuoteChar).reverse

/-- Python `str.upper()` (ASCII). -/
def pyUpper (s : List Char) : List Char := s.map Char.toUpper

/-- Python `str.split('\n')`: never returns `[]`; `"" ↦ [""]`. -/
def splitNL : List Char → List (List Char)
  | [] => [[]]
  | c :: t =>
    if c = '\n' then [] :: splitNL t
    else
      match splitNL t with
      | [] => [[c]]
      | h :: r => (c :: h) :: r

/-- Numeric value of a digit string, as produced by Python `int` on a
match of `\d+`. -/
def digitsVal (l : List Char) : Nat :=
  l.foldl (fun a c => a * 10 + (c.toNat - 48)) 0

/-! ## A model of `re.search` for the extractor's patterns

Every regular expression used by `extract_action_from_response` is a plain
concatenation of: literals, single-character classes, optional
single-character classes (`(?:"|\')?`, `s?`), greedy (`\s*`, `\s+`) and lazy
(`.*?`) repetitions of single-character classes, and capturing groups whose
bodies are such repetitions (`(.*?)`, `(\d+)`, `([A-Z]+)`).  `RItem` is one
element of such a concatenation; a pattern is a `List RItem`.

`matchSeq` reproduces Python's backtracking order: earlier items' preferred
alternatives win, greedy repetitions try longest first, lazy ones shortest
first, optional items try the present alternative first.  `searchSeq`
reproduces `re.search`: the match at the leftmost feasible start position is
returned, together with the list of captured groups. -/

inductive RItem where
  /-- case-sensitive literal -/
  | lit (s : List Char)
  /-- case-insensitive literal (all extractor patterns use `re.IGNORECASE`) -/
  | litI (s : List Char)
  /-- greedy optional single-character class -/
  | optCls (p : Char → Bool)
  /-- greedy star of a character class -/
  | starG (p : Char → Bool)
  /-- lazy star of a character class -/
  | starL (p : Char → Bool)
  /-- greedy plus of a character class -/
  | plusG (p : Char → Bool)
  /-- capturing group: lazy star of a character class -/
  | grpStarL (p : Char → Bool)
  /-- capturing group: greedy plus of a character class -/
  | grpPlusG (p : Char → Bool)

def RItem.isGroup : RItem → Bool
  | .grpStarL _ => true
  | .grpPlusG _ => true
  | _ => false

/-- Strip a case-sensitive literal prefix. -/
def stripPrefixCS : List Char → List Char → Option (List Char)
  | [], s => some s
  | a :: pt, s =>
    match s with
    | [] => none
    | b :: st => if a = b then stripPrefixCS pt st else none

/-- Strip a case-insensitive literal prefix. -/
def stripPrefixCI : List Char → List Char → Option (List Char)
  | [], s => some s
  | a :: pt, s =>
    match s with
    | [] => none
    | b :: st => if a.toLower = b.toLower then stripPrefixCI pt st else none

/-- All splits of `s` into a run of characters satisfying `p` followed by a
remainder, in ascending order of consumed length (the lazy order). -/
def splitsAsc (p : Char → Bool) : List Char → List (List Char × List Char)
  | [] => [([], [])]
  | c :: t =>
    ([], c :: t) ::
      (if p c then (splitsAsc p t).map (fun q => (c :: q.1, q.2)) else [])

/-- The candidate (consumed, remainder) splits for one item, in the order in
which Python's backtracking engine tries them. -/
def RItem.candidates : RItem → List Char → List (List Char × List Char)
  | .lit pre, s =>
    match stripPrefixCS pre s with
    | some r => [(s.take pre.length, r)]
    | none => []
  | .litI pre, s =>
    match stripPrefixCI pre s with
    | some r => [(s.take pre.length, r)]
    | none => []
  | .optCls p, s =>
    match s with
    | [] => [([], [])]
    | c :: t => if p c then [([c], t), ([], c :: t)] else [([], c :: t)]
  | .starG p, s => (splitsAsc p s).reverse
  | .starL p, s => splitsAsc p s
  | .plusG p, s => ((splitsAsc p s).reverse).filter (fun q => !q.1.isEmpty)
  | .grpStarL p, s => splitsAsc p s
  | .grpPlusG p, s => ((splitsAsc p s).reverse).filter (fun q => !q.1.isEmpty)

/-- Backtracking match of a pattern against a prefix of `s` (the match need
not reach the end of `s`); returns the captured groups of the first match
in backtracking order, or `none`. -/
def matchSeq : List RItem → List Char → Option (List (List Char))
  | [], _ => some []
  | it :: rest, s =>
    (it.candidates s).findSome? fun q =>
      (matchSeq rest q.2).map fun gs => if it.isGroup then q.1 :: gs else gs

/-- Model of `re.search`: try the pattern at every start position, leftmost first. -/
def searchSeq (items : List RItem) : List Char → Option (List (List Char))
  | [] => matchSeq items []
  | c :: t =>
    match matchSeq items (c :: t) with
    | some gs => some gs
    | none => searchSeq items t

/-! ## The extractor's patterns

Transliterations of `action_patterns[0..7]` in
`AIBroker.extract_action_from_response` (ai_broker.py lines 474-488), and of
the `<actions_taken>` block search (line 467).  All eight action patterns
are compiled with `re.IGNORECASE` (hence `litI`, and `[A-Z]` matching both
cases); the block search is case-sensitive with `re.DOTALL` (so its `.`
matches every character). -/

/-- Python `\d`. -/
def isDigitChar (c : Char) : Bool := '0' ≤ c && c ≤ '9'

/-- Model of `.` without `re.DOTALL`: any character except a newline. -/
def isDotNoNL (c : Char) : Bool := c ≠ '\n'

/-- Model of `.` with `re.DOTALL`. -/
def isDotAll (_ : Char) : Bool := true

/-- Model of `[A-Z]` under `re.IGNORECASE`. -/
def isLetterAZ (c : Char) : Bool := ('A' ≤ c && c ≤ 'Z') || ('a' ≤ c && c ≤ 'z')

/-- Model of `s` under `re.IGNORECASE` (the optional plural in `shares?`). -/
def isSChar (c : Char) : Bool := c = 's' || c = 'S'

def wsStar : RItem := .starG isPySpace
def wsPlus : RItem := .plusG isPySpace
def optQuote : RItem := .optCls isQuoteChar
/-- Model of `(.*?)` -/
def symGroup : RItem := .grpStarL isDotNoNL
/-- Model of `(\d+)` -/
def qtyGroup : RItem := .grpPlusG isDigitChar
/-- Model of `([A-Z]+)` under `re.IGNORECASE` -/
def letGroup : RItem := .grpPlusG isLetterAZ

/-- Model of `buy_stock\(\s*(?:"|\')?(.*?)(?:"|\')?\s*,\s*(\d+)\s*\)` -/
def pat0 : List RItem :=
  [.litI "buy_stock(".data, wsStar, optQuote, symGroup, optQuote, wsStar,
   .litI ",".data, wsStar, qtyGroup, wsStar, .litI ")".data]

/-- Model of `buy_stock\(\s*(?:"|\')?(.*?)(?:"|\')?\s*,\s*quantity\s*=\s*(\d+)\s*\)` -/
def pat1 : List RItem :=
  [.litI "buy_stock(".data, wsStar, optQuote, symGroup, optQuote, wsStar,
   .litI ",".data, wsStar, .litI "quantity".data, wsStar, .litI "=".data,
   wsStar, qtyGroup, wsStar, .litI ")".data]

/-- Model of `buy_stock\(\s*symbol\s*=\s*(?:"|\')?(.*?)(?:"|\')?\s*,\s*quantity\s*=\s*(\d+)\s*\)` -/
def pat2 : List RItem :=
  [.litI "buy_stock(".data, wsStar, .litI "symbol".data, wsStar, .litI "=".data,
   wsStar, optQuote, symGroup, optQuote, wsStar, .litI ",".data, wsStar,
   .litI "quantity".data, wsStar, .litI "=".data, wsStar, qtyGroup, wsStar,
   .litI ")".data]

/-- Model of `buy\s+(\d+)\s+shares?\s+of\s+([A-Z]+)` -/
def pat3 : List RItem :=
  [.litI "buy".data, wsPlus, qtyGroup, wsPlus, .litI "share".data,
   .optCls isSChar, wsPlus, .litI "of".data, wsPlus, letGroup]

/-- Model of `buy\s+([A-Z]+)\s+(\d+)\s+shares?` -/
def pat4 : List RItem :=
  [.litI "buy".data, wsPlus, letGroup, wsPlus, qtyGroup, wsPlus,
   .litI "share".data, .optCls isSChar]

/-- Model of `get_stock_price\(\s*(?:"|\')?(.*?)(?:"|\')?\s*\)` -/
def pat5 : List RItem :=
  [.litI "get_stock_price(".data, wsStar, optQuote, symGroup, optQuote,
   wsStar, .litI ")".data]

/-- Model of `get_stock_price\(\s*symbol\s*=\s*(?:"|\')?(.*?)(?:"|\')?\s*\)` -/
def pat6 : List RItem :=
  [.litI "get_stock_price(".data, wsStar, .litI "symbol".data, wsStar,
   .litI "=".data, wsStar, optQuote, symGroup, optQuote, wsStar,
   .litI ")".data]

/-- Model of `get_account_info\(\s*\)` -/
def pat7 : List RItem :=
  [.litI "get_account_info(".data, wsStar, .litI ")".data]

def openTag : List Char := "<actions_taken>".data
def closeTag : List Char := "</actions_taken>".data

/-- Model of `<actions_taken>(.*?)</actions_taken>` with `re.DOTALL` (line 467). -/
def blockPattern : List RItem :=
  [.lit openTag, .grpStarL isDotAll, .lit closeTag]

/-! ## The Action Extractor -/

/-- The structured action records the extractor produces (the dicts
`{"action": ..., "params": ...}` of ai_broker.py lines 513-542). -/
inductive Action where
  | buy_stock (symbol : String) (quantity : Int)
  | get_stock_price (symbol : String)
  | get_account_info
deriving DecidableEq, Repr

def Action.isBuy : Action → Bool
  | .buy_stock _ _ => true
  | _ => false

def Action.isPrice : Action → Bool
  | .get_stock_price _ => true
  | _ => false

def Action.isAccount : Action → Bool
  | .get_account_info => true
  | _ => false

/-- Model of `match.group(1).strip().strip('"\'').upper()` (line 502). -/
def normSymbol (raw : List Char) : String :=
  ⟨pyUpper (stripQuotes (pyStripList raw))⟩

/-- Model of `match.group(n).strip().upper()` (lines 506, 508). -/
def stripUpper (raw : List Char) : String :=
  ⟨pyUpper (pyStripList raw)⟩

/-- The `(symbol, quantity)` candidate from the first buy pattern
(in the fixed order `0,1,2,3,4` of line 497) that matches the line;
symbol normalization follows the per-pattern branches of lines 501-509. -/
def buyCandidate (line : List Char) : Option (String × Int) :=
  match searchSeq pat0 line with
  | some gs => some (normSymbol (gs.getD 0 []), (digitsVal (gs.getD 1 []) : Int))
  | none =>
    match searchSeq pat1 line with
    | some gs => some (normSymbol (gs.getD 0 []), (digitsVal (gs.getD 1 []) : Int))
    | none =>
      match searchSeq pat2 line with
      | some gs => some (normSymbol (gs.getD 0 []), (digitsVal (gs.getD 1 []) : Int))
      | none =>
        match searchSeq pat3 line with
        | some gs => some (stripUpper (gs.getD 1 []), (digitsVal (gs.getD 0 []) : Int))
        | none =>
          match searchSeq pat4 line with
          | some gs => some (stripUpper (gs.getD 0 []), (digitsVal (gs.getD 1 []) : Int))
          | none => none

/-- The buy action a line contributes: the first matching buy pattern's
candidate, kept only if `symbol and quantity > 0` (line 512). -/
def buyOfLine (line : List Char) : Option Action :=
  match buyCandidate line with
  | some (sym, qty) =>
    if sym ≠ "" ∧ 0 < qty then some (.buy_stock sym qty) else none
  | none => none

/-- The price action a line contributes: first of patterns 5, 6 (lines
523-535), kept only if the normalized symbol is nonempty (line 528). -/
def priceOfLine (line : List Char) : Option Action :=
  match searchSeq pat5 line with
  | some gs =>
    let sym := normSymbol (gs.getD 0 [])
    if sym ≠ "" then some (.get_stock_price sym) else none
  | none =>
    match searchSeq pat6 line with
    | some gs =>
      let sym := normSymbol (gs.getD 0 [])
      if sym ≠ "" then some (.get_stock_price sym) else none
    | none => none

/-- The account action a line contributes (lines 538-542). -/
def accountOfLine (line : List Char) : Option Action :=
  match searchSeq pat7 line with
  | some _ => some .get_account_info
  | none => none

/-- One iteration of the per-line loop (lines 491-542): strip the line,
skip it if blank, otherwise append the (independent) buy, price and
account contributions in that order. -/
def actionsOfLine (rawLine : List Char) : List Action :=
  if (pyStripList rawLine).isEmpty then []
  else
    (buyOfLine (pyStripList rawLine)).toList ++
      (priceOfLine (pyStripList rawLine)).toList ++
      (accountOfLine (pyStripList rawLine)).toList

/-- Model of `AIBroker.extract_action_from_response` (ai_broker.py lines 454-544) on
a list of characters. -/
def extractFromChars (response : List Char) : List Action :=
  match searchSeq blockPattern response with
  | none => []
  | some gs =>
    let text := pyStripList (gs.getD 0 [])
    ((splitNL text).map actionsOfLine).flatten

/-- Model of `AIBroker.extract_action_from_response`. -/
def extract_action_from_response (response : String) : List Action :=
  extractFromChars response.data

/-! ## The Action Dispatcher

`AIBroker.execute_actions` (ai_broker.py lines 546-618).  The broker methods
it dispatches to (`buy_stock`, `get_stock_price`, `get_account_info`) hit the
network; they are modelled by a `GatewayEnv` whose operations either return a
result dictionary (Python: the method returns normally — in the source these
methods catch their own exceptions and return `status: error` dicts on
failure) or raise (Python: an exception propagates out of the call), which is
what the dispatcher's `try/except` (lines 566-616) is there to catch.
Python's `results` dict preserves insertion order and, for these key shapes,
never sees a duplicate key, so it is modelled as the ordered list of
`(key, value)` insertions. -/

/-- A result dictionary, as far as the dispatcher is concerned. -/
abbrev ResDict := List (String × String)

/-- Model of `{"status": "error", "message": msg}`. -/
def errDict (msg : String) : ResDict := [("status", "error"), ("message", msg)]

/-- The behaviour of the three broker methods the dispatcher calls:
`Except.ok` is a normal return, `Except.error` a raised exception
(carrying `str(e)`). -/
structure GatewayEnv where
  buyResult : String → Int → Except String ResDict
  priceResult : String → Except String ResDict
  accountResult : Except String ResDict

/-- Python `str.strip().upper()` on a parameter value. -/
def pyStripUpper (s : String) : String := ⟨pyUpper (pyStripList s.data)⟩

/-- The body of one iteration of the dispatcher loop (lines 560-616) for the
action at index `i`: the produced `(key, value)` insertion. -/
def dispatchOne (env : GatewayEnv) (i : Nat) (a : Action) : String × ResDict :=
  match a with
  | .buy_stock sym qty =>
    let symbol := pyStripUpper sym
    if symbol = "" then
      ("buy_stock_" ++ toString i, errDict "Missing or invalid symbol")
    else if qty ≤ 0 then
      ("buy_stock_" ++ toString i, errDict "Quantity must be positive")
    else
      match env.buyResult symbol qty with
      | .ok r => ("buy_stock_" ++ toString i, r)
      | .error e =>
        ("buy_stock_" ++ toString i ++ "_error",
         errDict ("Error executing buy_stock: " ++ e))
  | .get_stock_price sym =>
    let symbol := pyStripUpper sym
    if symbol = "" then
      ("get_stock_price_" ++ toString i, errDict "Missing or invalid symbol")
    else
      match env.priceResult symbol with
      | .ok r => ("get_stock_price_" ++ toString i, r)
      | .error e =>
        ("get_stock_price_" ++ toString i ++ "_error",
         errDict ("Error executing get_stock_price: " ++ e))
  | .get_account_info =>
    match env.accountResult with
    | .ok r => ("get_account_info_" ++ toString i, r)
    | .error e =>
      ("get_account_info_" ++ toString i ++ "_error",
       errDict ("Error executing get_account_info: " ++ e))

/-- The `for i, action in enumerate(actions)` loop, starting at index `i`. -/
def executeFrom (env : GatewayEnv) : Nat → List Action → List (String × ResDict)
  | _, [] => []
  | i, a :: rest => dispatchOne env i a :: executeFrom env (i + 1) rest

/-- Model of `AIBroker.execute_actions`. -/
def execute_actions (env : GatewayEnv) (actions : List Action) :
    List (String × ResDict) :=
  executeFrom env 0 actions

/-! ## Order builders

`OrderManager` (`src/alpaca_trader/core/orders.py`).  Python `float`
arguments are modelled as rationals — only sign tests and presence are ever
used.  The order dict built by `_prepare_order_base` and extended by the
four order methods is modelled as a structure with `Option` fields for the
keys that are only conditionally present; each order method is modelled as
returning the request dict it passes to `client.submit_order` (or `none`
when it returns early without submitting). -/

inductive OrderSide where
  | buy
  | sell
deriving DecidableEq, Repr

def OrderSide.value : OrderSide → String
  | .buy => "buy"
  | .sell => "sell"

inductive TimeInForce where
  | day
  | gtc
  | opg
  | cls
  | ioc
  | fok
deriving DecidableEq, Repr

def TimeInForce.value : TimeInForce → String
  | .day => "day"
  | .gtc => "gtc"
  | .opg => "opg"
  | .cls => "cls"
  | .ioc => "ioc"
  | .fok => "fok"

structure OrderReq where
  symbol : String
  side : String
  time_in_force : String
  qty : Option String := none
  notional : Option String := none
  order_type : Option String := none
  limit_price : Option String := none
  stop_price : Option String := none
  extended_hours : Option Bool := none
deriving DecidableEq, Repr

/-- Model of `OrderManager.validate_order_parameters` (orders.py lines 41-72). -/
def validate_order_parameters (symbol : String) (qty notional : Option ℚ) :
    Bool :=
  if symbol = "" then false
  else if (qty.isNone && notional.isNone) || (qty.isSome && notional.isSome)
    then false
  else if (match qty with | some q => decide (q ≤ 0) | none => false : Bool)
    then false
  else if (match notional with
      | some n => decide (n ≤ 0)
      | none => false : Bool)
    then false
  else true

/-- Model of `OrderManager._prepare_order_base` (orders.py lines 74-105).  Note
lines 100-103: `qty` is set when the `qty` argument is not `None`,
otherwise `notional` is set (`str(None)` would be `"None"`, kept faithful
although validation makes it unreachable). -/
def prepare_order_base (symbol : String) (side : OrderSide)
    (qty notional : Option ℚ) (time_in_force : TimeInForce) :
    Option OrderReq :=
  if validate_order_parameters symbol qty notional then
    some
      { symbol := ⟨pyUpper symbol.data⟩
        side := side.value
        time_in_force := time_in_force.value
        qty := qty.map toString
        notional :=
          match qty with
          | some _ => none
          | none => some (match notional with
              | some n => toString n
              | none => "None") }
  else none

/-- Model of `OrderManager.market_order` (orders.py lines 107-133), as the request
dict handed to `client.submit_order`. -/
def market_order (symbol : String) (side : OrderSide) (qty notional : Option ℚ)
    (time_in_force : TimeInForce) (extended_hours : Bool) : Option OrderReq :=
  match prepare_order_base symbol side qty notional time_in_force with
  | none => none
  | some o =>
    some { o with
           order_type := some "market"
           extended_hours := if extended_hours then some true else none }

/-- Model of `OrderManager.limit_order` (orders.py lines 135-168).  `if not
limit_price or float(limit_price) <= 0` collapses to `limit_price ≤ 0` on
rationals (`0.0` is falsy). -/
def limit_order (symbol : String) (side : OrderSide) (limit_price : ℚ)
    (qty notional : Option ℚ) (time_in_force : TimeInForce)
    (extended_hours : Bool) : Option OrderReq :=
  match prepare_order_base symbol side qty notional time_in_force with
  | none => none
  | some o =>
    if limit_price ≤ 0 then none
    else
      some { o with
             order_type := some "limit"
             limit_price := some (toString limit_price)
             extended_hours := if extended_hours then some true else none }

/-- Model of `OrderManager.stop_order` (orders.py lines 170-200). -/
def stop_order (symbol : String) (side : OrderSide) (stop_price : ℚ)
    (qty notional : Option ℚ) (time_in_force : TimeInForce) :
    Option OrderReq :=
  match prepare_order_base symbol side qty notional time_in_force with
  | none => none
  | some o =>
    if stop_price ≤ 0 then none
    else
      some { o with
             order_type := some "stop"
             stop_price := some (toString stop_price) }

/-- Model of `OrderManager.stop_limit_order` (orders.py lines 202-238). -/
def stop_limit_order (symbol : String) (side : OrderSide)
    (stop_price limit_price : ℚ) (qty notional : Option ℚ)
    (time_in_force : TimeInForce) : Option OrderReq :=
  match prepare_order_base symbol side qty notional time_in_force with
  | none => none
  | some o =>
    if stop_price ≤ 0 then none
    else if limit_price ≤ 0 then none
    else
      some { o with
             order_type := some "stop_limit"
             stop_price := some (toString stop_price)
             limit_price := some (toString limit_price) }

/-- The `MarketOrderRequest` built by `AIBroker.buy_stock` (ai_broker.py
lines 249-255): the SDK request carries either `qty` or `notional`;
`buy_stock` always passes `qty` and never `notional`. -/
structure AIMarketOrderRequest where
  symbol : String
  qty : Option Int
  notional : Option Int
  side : String
  time_in_force : String
deriving DecidableEq, Repr

/-- The request `AIBroker.buy_stock` submits (ai_broker.py lines 235-258),
or `none` when validation fails and no order is submitted (`if not
quantity or quantity <= 0` collapses to `quantity ≤ 0` since `0` is
falsy). -/
def buyStockRequest (symbol : String) (quantity : Int) :
    Option AIMarketOrderRequest :=
  if symbol = "" then none
  else if quantity ≤ 0 then none
  else
    some
      { symbol := ⟨pyUpper symbol.data⟩
        qty := some quantity
        notional := none
        side := "buy"
        time_in_force := "day" }

/-- Exactly one of the two optional fields is present. -/
def ExactlyOne (a b : Option String) : Prop :=
  (a.isSome ∧ b.isNone) ∨ (a.isNone ∧ b.isSome)

/-! ## The brokerage client

`AlpacaClient` (`src/alpaca_trader/core/client.py`).  The client's
credentials come from `AccountManager` (`core/account.py`), whose
`is_configured` is `bool(api_key and api_secret and base_url)` — Python
truthiness on values that are either `None` or strings.  The `requests`
library is an environment `Net`; a transport exception is `Except.error`.
Every operation returns its result *paired with the list of HTTP requests
it attempted*, so "no network call" is the statement that the list is
empty.  JSON decoding of a response body is external and kept as the raw
body string. -/

structure Creds where
  api_key : Option String
  api_secret : Option String
  base_url : Option String
deriving DecidableEq, Repr

/-- Python truthiness of an `Optional[str]`. -/
def truthyStr : Option String → Bool
  | none => false
  | some s => s ≠ ""

/-- Model of `AccountManager.is_configured` (account.py lines 20-27). -/
def is_configured (c : Creds) : Bool :=
  truthyStr c.api_key && truthyStr c.api_secret && truthyStr c.base_url

structure HttpReq where
  verb : String
  url : String
deriving DecidableEq, Repr

structure HttpResp where
  status_code : Nat
  body : String
deriving DecidableEq, Repr

/-- The transport: a response, or a raised exception. -/
abbrev Net := HttpReq → Except String HttpResp

/-- Model of `self.base_url` as used to build endpoint URLs (client.py lines 20-26). -/
def baseUrlOf (c : Creds) : String := (c.base_url).getD ""

/-- Model of `AlpacaClient.get_account` (client.py lines 41-62). -/
def client_get_account (c : Creds) (net : Net) :
    Option String × List HttpReq :=
  if !is_configured c then (none, [])
  else
    let req : HttpReq := ⟨"GET", baseUrlOf c ++ "/v2/account"⟩
    match net req with
    | .ok resp =>
      (if resp.status_code = 200 then some resp.body else none, [req])
    | .error _ => (none, [req])

/-- Model of `AlpacaClient.get_positions` (client.py lines 64-85). -/
def client_get_positions (c : Creds) (net : Net) :
    Option String × List HttpReq :=
  if !is_configured c then (none, [])
  else
    let req : HttpReq := ⟨"GET", baseUrlOf c ++ "/v2/positions"⟩
    match net req with
    | .ok resp =>
      (if resp.status_code = 200 then some resp.body else none, [req])
    | .error _ => (none, [req])

/-- Model of `AlpacaClient.get_position` (client.py lines 87-116). -/
def client_get_position (c : Creds) (net : Net) (symbol : String) :
    Option String × List HttpReq :=
  if !is_configured c then (none, [])
  else
    let req : HttpReq := ⟨"GET", baseUrlOf c ++ "/v2/positions/" ++ symbol⟩
    match net req with
    | .ok resp =>
      (if resp.status_code = 200 then some resp.body else none, [req])
    | .error _ => (none, [req])

/-- Model of `AlpacaClient.get_orders` (client.py lines 118-147); the query params
are folded into the URL string. -/
def client_get_orders (c : Creds) (net : Net) (status : Option String)
    (lim : Nat) : Option String × List HttpReq :=
  if !is_configured c then (none, [])
  else
    let params :=
      "?limit=" ++ toString lim ++
        (match status with | some st => "&status=" ++ st | none => "")
    let req : HttpReq := ⟨"GET", baseUrlOf c ++ "/v2/orders" ++ params⟩
    match net req with
    | .ok resp =>
      (if resp.status_code = 200 then some resp.body else none, [req])
    | .error _ => (none, [req])

/-- Model of `AlpacaClient.get_order` (client.py lines 149-175). -/
def client_get_order (c : Creds) (net : Net) (order_id : String) :
    Option String × List HttpReq :=
  if !is_configured c then (none, [])
  else
    let req : HttpReq := ⟨"GET", baseUrlOf c ++ "/v2/orders/" ++ order_id⟩
    match net req with
    | .ok resp =>
      (if resp.status_code = 200 then some resp.body else none, [req])
    | .error _ => (none, [req])

/-- Model of `AlpacaClient.submit_order` (client.py lines 177-208): accepts both
200 and 201.  The JSON serialization of the order payload is external;
the payload itself does not affect the control flow modelled here. -/
def client_submit_order (c : Creds) (net : Net) (_order_data : OrderReq) :
    Option String × List HttpReq :=
  if !is_configured c then (none, [])
  else
    let req : HttpReq := ⟨"POST", baseUrlOf c ++ "/v2/orders"⟩
    match net req with
    | .ok resp =>
      (if resp.status_code = 200 ∨ resp.status_code = 201 then some resp.body
       else none, [req])
    | .error _ => (none, [req])

/-- Model of `AlpacaClient.cancel_order` (client.py lines 210-237): returns a bool,
`True` only on status 204. -/
def client_cancel_order (c : Creds) (net : Net) (order_id : String) :
    Bool × List HttpReq :=
  if !is_configured c then (false, [])
  else
    let req : HttpReq := ⟨"DELETE", baseUrlOf c ++ "/v2/orders/" ++ order_id⟩
    match net req with
    | .ok resp => (resp.status_code = 204, [req])
    | .error _ => (false, [req])

/-- Model of `AlpacaClient.cancel_all_orders` (client.py lines 239-262): `True` only
on status 207. -/
def client_cancel_all_orders (c : Creds) (net : Net) :
    Bool × List HttpReq :=
  if !is_configured c then (false, [])
  else
    let req : HttpReq := ⟨"DELETE", baseUrlOf c ++ "/v2/orders"⟩
    match net req with
    | .ok resp => (resp.status_code = 207, [req])
    | .error _ => (false, [req])

/-! ## The market-data normalizer

The per-symbol part of `AIBroker.get_market_data` (ai_broker.py lines
83-168).  `start = end - timedelta(days=30)` and `limit=1` are recorded on
every request; `datetime.now()` is the parameter `today`.  The SDK call is
the environment `DataEnv`: a request either raises, or returns a response
in which the symbol is absent, or returns the symbol's (possibly empty)
list of bars.  The code takes the *last* bar of the first non-empty list
and stops; an exception or an absent/empty list falls through to the next
timeframe (lines 149-151 and the `break`s at lines 125 and 148). -/

inductive TF where
  | Day
  | Hour
  | Minute
deriving DecidableEq, Repr

structure Bar where
  close : ℚ
  openPrice : ℚ
  timestamp : String
  volume : ℚ
deriving DecidableEq, Repr

structure BarsReq where
  symbol : String
  timeframe : TF
  startDaysAgo : Nat
  lim : Nat
deriving DecidableEq, Repr

inductive BarsOutcome where
  /-- the SDK call raised -/
  | raises (msg : String)
  /-- response without the symbol among its keys -/
  | noSymbol
  /-- response carrying this list of bars for the symbol -/
  | bars (l : List Bar)

abbrev DataEnv := BarsReq → BarsOutcome

/-- The per-symbol entry of the `market_data` dict. -/
structure MarketRecord where
  price : Option ℚ := none
  change : Option ℚ := none
  volume : Option ℚ := none
  timestamp : Option String := none
  error : Option String := none
  note : Option String := none
  tradeable : Option Bool := none
deriving DecidableEq, Repr

/-- The record built from the latest bar (ai_broker.py lines 119-124). -/
def recordOfBar (b : Bar) : MarketRecord :=
  { price := some b.close
    change := some (b.close - b.openPrice)
    volume := some b.volume
    timestamp := some b.timestamp }

/-- The placeholder when no timeframe produced data (lines 154-160). -/
def noDataRecord : MarketRecord :=
  { price := none
    error := some "No data found"
    note := some "Stock symbol is valid and can be traded even without price data"
    tradeable := some true }

/-- The fixed order of line 90: `[TimeFrame.Day, TimeFrame.Hour,
TimeFrame.Minute]`. -/
def tfOrder : List TF := [.Day, .Hour, .Minute]

/-- The `for timeframe in [...]` loop (lines 90-151): attempt each
timeframe in order, returning the latest bar of the first non-empty
result together with the trace of SDK requests attempted. -/
def tryTimeframes (env : DataEnv) (symbol : String) :
    List TF → Option Bar × List BarsReq
  | [] => (none, [])
  | tf :: rest =>
    let req : BarsReq := ⟨symbol, tf, 30, 1⟩
    match env req with
    | .bars l =>
      match l.getLast? with
      | some b => (some b, [req])
      | none =>
        let (r, tr) := tryTimeframes env symbol rest
        (r, req :: tr)
    | .noSymbol =>
      let (r, tr) := tryTimeframes env symbol rest
      (r, req :: tr)
    | .raises _ =>
      let (r, tr) := tryTimeframes env symbol rest
      (r, req :: tr)

/-- The per-symbol body of `AIBroker.get_market_data` (lines 83-168). -/
def get_market_data_symbol (env : DataEnv) (symbol : String) :
    MarketRecord × List BarsReq :=
  match tryTimeframes env symbol tfOrder with
  | (some b, tr) => (recordOfBar b, tr)
  | (none, tr) => (noDataRecord, tr)

/-- One attempt of the normalizer, in direct form: the latest bar of a
non-empty successful response for the given timeframe, `none` on an
exception, an absent symbol, or an empty bar list. -/
def specAttemptBar (env : DataEnv) (symbol : String) (tf : TF) : Option Bar :=
  match env { symbol := symbol, timeframe := tf, startDaysAgo := 30, lim := 1 } with
  | .bars l => l.getLast?
  | _ => none

/-- The timeframes the normalizer attempts, in direct form: daily, then
hourly, then minute, stopping after the first successful attempt. -/
def specTriedTFs (env : DataEnv) (symbol : String) : List TF :=
  match specAttemptBar env symbol .Day with
  | some _ => [.Day]
  | none =>
    match specAttemptBar env symbol .Hour with
    | some _ => [.Day, .Hour]
    | none => [.Day, .Hour, .Minute]

/-- The bar the normalizer settles on, in direct form: the first
successful attempt among daily, hourly, minute. -/
def specResultBar (env : DataEnv) (symbol : String) : Option Bar :=
  match specAttemptBar env symbol .Day with
  | some b => some b
  | none =>
    match specAttemptBar env symbol .Hour with
    | some b => some b
    | none => specAttemptBar env symbol .Minute

/-! ## Configuration and credential encryption

`ConfigManager` (`src/alpaca_trader/utils/config.py`).  The config file is
a JSON object whose optional `alpaca` object has optional `api_key`,
`api_secret`, `base_url` entries.

For `_encrypt_value` / `_decrypt_value`, the plaintext is modelled as its
UTF-8 byte sequence (a `List Nat` of values `< 256`).  PKCS#7 padding and
CBC chaining are modelled faithfully; the AES-256 block transformation
itself is an external library primitive and is a parameter pair
`(enc, dec)` of functions on 16-byte blocks.  Base64 is modelled by an
executable encoder/decoder over the standard alphabet. -/

structure AlpacaSection where
  api_key : Option String
  api_secret : Option String
  base_url : Option String
deriving DecidableEq, Repr

structure Config where
  alpaca : Option AlpacaSection
deriving DecidableEq, Repr

def paperUrl : String := "https://paper-api.alpaca.markets"
def liveUrl : String := "https://api.alpaca.markets"

/-- Model of `ConfigManager.get_alpaca_credentials` (config.py lines 145-160). -/
def get_alpaca_credentials (cfg : Config) :
    Option String × Option String × Option String :=
  match cfg.alpaca with
  | none => (none, none, none)
  | some s => (s.api_key, s.api_secret, some (s.base_url.getD paperUrl))

/-- PKCS#7 padding (`Crypto.Util.Padding.pad` with `AES.block_size = 16`):
append `k` copies of the byte `k`, where `k = 16 - len % 16 ∈ [1, 16]`. -/
def pkcs7pad (data : List Nat) : List Nat :=
  let k := 16 - data.length % 16
  data ++ List.replicate k k

/-- PKCS#7 unpadding (`Crypto.Util.Padding.unpad`): `none` models the
`ValueError` raised on invalid padding. -/
def pkcs7unpad (data : List Nat) : Option (List Nat) :=
  match data.getLast? with
  | none => none
  | some k =>
    if k = 0 ∨ 16 < k ∨ data.length < k then none
    else if (data.drop (data.length - k)).all (· = k) then
      some (data.take (data.length - k))
    else none

/-- Split a byte list into 16-byte chunks (the block traversal inside the
library's CBC mode). -/
def chunks16 (l : List Nat) : List (List Nat) :=
  if h : l = [] then []
  else l.take 16 :: chunks16 (l.drop 16)
termination_by l.length
decreasing_by
  simp only [List.length_drop]
  have : 0 < l.length := List.length_pos.mpr h
  omega

/-- Byte-wise xor of two equal-length blocks. -/
def xorBytes (a b : List Nat) : List Nat := List.zipWith Nat.xor a b

/-- CBC encryption of a block sequence with block transformation `E` and
previous ciphertext block `prev` (initially the IV). -/
def cbcEncBlocks (E : List Nat → List Nat) (prev : List Nat) :
    List (List Nat) → List (List Nat)
  | [] => []
  | b :: rest =>
    let c := E (xorBytes b prev)
    c :: cbcEncBlocks E c rest

/-- CBC decryption with block transformation `D`. -/
def cbcDecBlocks (D : List Nat → List Nat) (prev : List Nat) :
    List (List Nat) → List (List Nat)
  | [] => []
  | c :: rest => xorBytes (D c) prev :: cbcDecBlocks D c rest

/-- The base64 alphabet. -/
def b64alpha : List Char :=
  "ABCDEFGHIJKLMNOPQRSTUVWXYZabcdefghijklmnopqrstuvwxyz0123456789+/".data

def b64chr (i : Nat) : Char := b64alpha.getD i '?'

/-- Index of a character in the base64 alphabet (`none` for a character
outside it, which makes decoding fail as `b64decode` does on malformed
input). -/
def b64idx (c : Char) : Option Nat :=
  (b64alpha.findIdx? (· = c))

/-- Model of `base64.b64encode` on bytes. -/
def b64encode : List Nat → List Char
  | [] => []
  | [a] => [b64chr (a / 4), b64chr (a % 4 * 16), '=', '=']
  | [a, b] => [b64chr (a / 4), b64chr (a % 4 * 16 + b / 16), b64chr (b % 16 * 4), '=']
  | a :: b :: c :: rest =>
    b64chr (a / 4) :: b64chr (a % 4 * 16 + b / 16) ::
      b64chr (b % 16 * 4 + c / 64) :: b64chr (c % 64) :: b64encode rest

/-- Model of `base64.b64decode` on well-formed groups of four (characters outside
the alphabet, or a malformed tail, make it fail as `b64decode` raises). -/
def b64decode : List Char → Option (List Nat)
  | [] => some []
  | w :: x :: y :: z :: rest =>
    if y = '=' then
      if z = '=' ∧ rest = [] then
        match b64idx w, b64idx x with
        | some a, some b => some [a * 4 + b / 16]
        | _, _ => none
      else none
    else if z = '=' then
      if rest = [] then
        match b64idx w, b64idx x, b64idx y with
        | some a, some b, some c =>
          some [a * 4 + b / 16, b % 16 * 16 + c / 4]
        | _, _, _ => none
      else none
    else
      match b64idx w, b64idx x, b64idx y, b64idx z, b64decode rest with
      | some a, some b, some c, some d, some tail =>
        some ((a * 4 + b / 16) :: (b % 16 * 16 + c / 4) ::
          (c % 4 * 64 + d) :: tail)
      | _, _, _, _, _ => none
  | _ => none

/-- Model of `ConfigManager._encrypt_value` (config.py lines 60-77) at the byte
level: pad the plaintext, CBC-encrypt it under the block transformation
`E` with the random IV `iv`, prefix the IV, and base64-encode. -/
def encrypt_value (E : List Nat → List Nat) (iv value : List Nat) :
    List Char :=
  b64encode (iv ++ (cbcEncBlocks E iv (chunks16 (pkcs7pad value))).flatten)

/-- Model of `ConfigManager._decrypt_value` (config.py lines 79-100) at the byte
level: base64-decode, split off the 16-byte IV, CBC-decrypt under `D`,
unpad.  `none` models the caught-exception path that returns `None`
(malformed base64, a ciphertext that is not a whole number of blocks —
which makes the library's `decrypt` raise — or invalid padding). -/
def decrypt_value (D : List Nat → List Nat) (enc : List Char) :
    Option (List Nat) :=
  match b64decode enc with
  | none => none
  | some raw =>
    let iv := raw.take 16
    let ct := raw.drop 16
    if ct.length % 16 = 0 then
      pkcs7unpad (cbcDecBlocks D iv (chunks16 ct)).flatten
    else none

/-! ## Characterization of the block search

Direct (non-backtracking) forms of the `<actions_taken>` block search,
proved equal to the `searchSeq blockPattern` semantics below and used to
reason about inputs containing several blocks. -/

/-- Split `s` at the first occurrence of `pat`: `some (a, b)` with
`s = a ++ pat ++ b` and `pat` not starting in `a` at any earlier
position. -/
def splitAtFirst (pat : List Char) : List Char → Option (List Char × List Char)
  | [] => (match stripPrefixCS pat [] with
           | some r => some ([], r)
           | none => none)
  | c :: t =>
    match stripPrefixCS pat (c :: t) with
    | some r => some ([], r)
    | none => (splitAtFirst pat t).map fun q => (c :: q.1, q.2)

/-- The block-pattern match anchored at the current position: requires the
open tag here, and captures up to the first close tag after it. -/
def blockHere (s : List Char) : Option (List Char) :=
  match stripPrefixCS openTag s with
  | none => none
  | some r => (splitAtFirst closeTag r).map fun q => q.1

/-- Leftmost-match block search in direct recursive form. -/
def findBlockSpec : List Char → Option (List Char)
  | [] => none
  | c :: t =>
    match blockHere (c :: t) with
    | some inner => some inner
    | none => findBlockSpec t

/-! ## Concrete environments used in witnesses and counterexamples -/

/-- A gateway on which every broker call returns normally, echoing its
symbol. -/
def envEcho : GatewayEnv :=
  { buyResult := fun s _ => .ok [("status", "success"), ("symbol", s)]
    priceResult := fun s => .ok [("status", "success"), ("symbol", s)]
    accountResult := .ok [("status", "success")] }

/-- A gateway on which `buy_stock` raises for AAPL and returns normally
otherwise. -/
def envAaplRaises : GatewayEnv :=
  { buyResult := fun s _ =>
      if s = "AAPL" then .error "boom" else .ok [("status", "success")]
    priceResult := fun _ => .ok [("status", "success")]
    accountResult := .ok [("status", "success")] }

/-- A data environment on which every timeframe has data, with a different
closing price per timeframe (Day ↦ 1, Hour ↦ 2, Minute ↦ 3). -/
def envAllTimeframes : DataEnv := fun r =>
  .bars [{ close := match r.timeframe with
                    | .Day => 1
                    | .Hour => 2
                    | .Minute => 3
           openPrice := 0
           timestamp := "ts"
           volume := 1 }]

/-- A transport that always raises. -/
def netRaises : Net := fun _ => .error "connection refused"

/-- A transport that always answers HTTP 500. -/
def net500 : Net := fun _ => .ok ⟨500, "internal error"⟩

/-- Entirely unconfigured credentials. -/
def credsNone : Creds := ⟨none, none, none⟩

/-- Fully configured credentials. -/
def credsFull : Creds := ⟨some "KEY", some "SECRET", some paperUrl⟩

/-! # Theorems -/

/-! ## C10: environment selection defaults to paper trading -/

/-- C10.  Whenever the loaded configuration contains an `alpaca`
section with no `base_url` entry, `get_alpaca_credentials` returns the
paper-trading URL as the base URL — never the live endpoint. -/
theorem missing_base_url_defaults_to_paper (cfg : Config) (s : AlpacaSection)
    (hs : cfg.alpaca = some s) (hb : s.base_url = none) :
    (get_alpaca_credentials cfg).2.2 = some paperUrl ∧
    (get_alpaca_credentials cfg).2.2 ≠ some liveUrl := by
  constructor
  · simp [get_alpaca_credentials, hs, hb]
  · simp [get_alpaca_credentials, hs, hb, paperUrl, liveUrl]

/-- Witness for `missing_base_url_defaults_to_paper` at a concrete
configuration. -/
theorem missing_base_url_defaults_to_paper_witness :
    (get_alpaca_credentials ⟨some ⟨some "K", some "S", none⟩⟩).2.2
        = some paperUrl ∧
    (get_alpaca_credentials ⟨some ⟨some "K", some "S", none⟩⟩).2.2
        ≠ some liveUrl :=
  missing_base_url_defaults_to_paper ⟨some ⟨some "K", some "S", none⟩⟩
    ⟨some "K", some "S", none⟩ rfl rfl

/-! ## C3: exactly one of qty / notional on every order request -/

theorem prepare_exactly_one (symbol : String) (side : OrderSide)
    (qty notional : Option ℚ) (tif : TimeInForce) (o : OrderReq)
    (h : prepare_order_base symbol side qty notional tif = some o) :
    ExactlyOne o.qty o.notional := by
  unfold prepare_order_base at h
  split at h
  · rcases qty with _ | q
    · rw [Option.some.injEq] at h
      subst h
      right
      simp
    · rw [Option.some.injEq] at h
      subst h
      left
      simp
  · cases h

theorem market_order_exactly_one (symbol : String) (side : OrderSide)
    (qty notional : Option ℚ) (tif : TimeInForce) (ext : Bool) (o : OrderReq)
    (h : market_order symbol side qty notional tif ext = some o) :
    ExactlyOne o.qty o.notional := by
  unfold market_order at h
  split at h
  · cases h
  · rename_i o' hsome
    rw [Option.some.injEq] at h
    subst h
    simpa using prepare_exactly_one _ _ _ _ _ _ hsome

theorem limit_order_exactly_one (symbol : String) (side : OrderSide)
    (lp : ℚ) (qty notional : Option ℚ) (tif : TimeInForce) (ext : Bool)
    (o : OrderReq)
    (h : limit_order symbol side lp qty notional tif ext = some o) :
    ExactlyOne o.qty o.notional := by
  unfold limit_order at h
  split at h
  · cases h
  · rename_i o' hsome
    split at h
    · cases h
    · rw [Option.some.injEq] at h
      subst h
      simpa using prepare_exactly_one _ _ _ _ _ _ hsome

theorem stop_order_exactly_one (symbol : String) (side : OrderSide)
    (sp : ℚ) (qty notional : Option ℚ) (tif : TimeInForce) (o : OrderReq)
    (h : stop_order symbol side sp qty notional tif = some o) :
    ExactlyOne o.qty o.notional := by
  unfold stop_order at h
  split at h
  · cases h
  · rename_i o' hsome
    split at h
    · cases h
    · rw [Option.some.injEq] at h
      subst h
      simpa using prepare_exactly_one _ _ _ _ _ _ hsome

theorem stop_limit_order_exactly_one (symbol : String) (side : OrderSide)
    (sp lp : ℚ) (qty notional : Option ℚ) (tif : TimeInForce) (o : OrderReq)
    (h : stop_limit_order symbol side sp lp qty notional tif = some o) :
    ExactlyOne o.qty o.notional := by
  unfold stop_limit_order at h
  split at h
  · cases h
  · rename_i o' hsome
    split at h
    · cases h
    · split at h
      · cases h
      · rw [Option.some.injEq] at h
        subst h
        simpa using prepare_exactly_one _ _ _ _ _ _ hsome

theorem buyStockRequest_exactly_one (symbol : String) (quantity : Int)
    (r : AIMarketOrderRequest) (h : buyStockRequest symbol quantity = some r) :
    r.qty.isSome ∧ r.notional = none := by
  unfold buyStockRequest at h
  split at h
  · cases h
  · split at h
    · cases h
    · rw [Option.some.injEq] at h
      subst h
      simp

/-- C3.  Every order-request dictionary produced by
`OrderManager._prepare_order_base` (and hence the requests submitted by
`market_order`, `limit_order`, `stop_order`, `stop_limit_order` when
validation succeeds), and every `MarketOrderRequest` built by
`AIBroker.buy_stock`, carries exactly one of the fields `qty` and
`notional` — never both, never neither. -/
theorem order_requests_have_exactly_one_size :
    (∀ symbol side qty notional tif o,
        prepare_order_base symbol side qty notional tif = some o →
        ExactlyOne o.qty o.notional) ∧
    (∀ symbol side qty notional tif ext o,
        market_order symbol side qty notional tif ext = some o →
        ExactlyOne o.qty o.notional) ∧
    (∀ symbol side lp qty notional tif ext o,
        limit_order symbol side lp qty notional tif ext = some o →
        ExactlyOne o.qty o.notional) ∧
    (∀ symbol side sp qty notional tif o,
        stop_order symbol side sp qty notional tif = some o →
        ExactlyOne o.qty o.notional) ∧
    (∀ symbol side sp lp qty notional tif o,
        stop_limit_order symbol side sp lp qty notional tif = some o →
        ExactlyOne o.qty o.notional) ∧
    (∀ symbol quantity r,
        buyStockRequest symbol quantity = some r →
        r.qty.isSome ∧ r.notional = none) :=
  ⟨fun _ _ _ _ _ _ h => prepare_exactly_one _ _ _ _ _ _ h,
   fun _ _ _ _ _ _ _ h => market_order_exactly_one _ _ _ _ _ _ _ h,
   fun _ _ _ _ _ _ _ _ h => limit_order_exactly_one _ _ _ _ _ _ _ _ h,
   fun _ _ _ _ _ _ _ h => stop_order_exactly_one _ _ _ _ _ _ _ h,
   fun _ _ _ _ _ _ _ _ h => stop_limit_order_exactly_one _ _ _ _ _ _ _ _ h,
   fun _ _ _ h => buyStockRequest_exactly_one _ _ _ h⟩

/-- Witness for `order_requests_have_exactly_one_size`: concrete qty-only
and notional-only requests through each builder. -/
theorem order_requests_have_exactly_one_size_witness :
    ExactlyOne (some (toString (5 : ℚ))) (none : Option String) ∧
    ExactlyOne (some (toString (5 : ℚ))) (none : Option String) ∧
    ExactlyOne (none : Option String) (some (toString (250 : ℚ))) ∧
    ExactlyOne (some (toString (5 : ℚ))) (none : Option String) ∧
    ExactlyOne (some (toString (5 : ℚ))) (none : Option String) ∧
    (some (10 : Int)).isSome ∧ (none : Option Int) = none :=
  ⟨order_requests_have_exactly_one_size.1 "AAPL" .buy (some 5) none .day
      { symbol := "AAPL", side := "buy", time_in_force := "day",
        qty := some (toString (5 : ℚ)), notional := none } (by rfl),
   order_requests_have_exactly_one_size.2.1 "AAPL" .buy (some 5) none .day
      false
      { symbol := "AAPL", side := "buy", time_in_force := "day",
        qty := some (toString (5 : ℚ)), notional := none,
        order_type := some "market" } (by rfl),
   order_requests_have_exactly_one_size.2.2.1 "AAPL" .buy 100 none
      (some 250) .day false
      { symbol := "AAPL", side := "buy", time_in_force := "day",
        qty := none, notional := some (toString (250 : ℚ)),
        order_type := some "limit",
        limit_price := some (toString (100 : ℚ)) } (by rfl),
   order_requests_have_exactly_one_size.2.2.2.1 "AAPL" .sell 90 (some 5)
      none .day
      { symbol := "AAPL", side := "sell", time_in_force := "day",
        qty := some (toString (5 : ℚ)), notional := none,
        order_type := some "stop",
        stop_price := some (toString (90 : ℚ)) } (by rfl),
   order_requests_have_exactly_one_size.2.2.2.2.1 "AAPL" .sell 90 80
      (some 5) none .day
      { symbol := "AAPL", side := "sell", time_in_force := "day",
        qty := some (toString (5 : ℚ)), notional := none,
        order_type := some "stop_limit",
        stop_price := some (toString (90 : ℚ)),
        limit_price := some (toString (80 : ℚ)) } (by rfl),
   order_requests_have_exactly_one_size.2.2.2.2.2 "aapl" 10
      { symbol := "AAPL", qty := some 10, notional := none,
        side := "buy", time_in_force := "day" } (by rfl)⟩

/-! ## C4: unconfigured gateway operations -/

/-- C4, counterexample.  The claim says an operation invoked without
configured credentials "returns an explicit structured 'not configured'
error result".  It does not: `get_account` returns the bare `None` (and
`cancel_order` the bare `False`) — the very same values returned on an
HTTP 500 with fully configured credentials — so the returned value is not
a structured result and carries no "not configured" information (that text
is only printed to the console). -/
theorem unconfigured_not_structured_counterexample :
    (client_get_account credsNone netRaises).1 = none ∧
    (client_get_account credsFull net500).1 = none ∧
    (client_cancel_order credsNone netRaises "42").1 = false ∧
    (client_cancel_order credsFull net500 "42").1 = false :=
  ⟨rfl, rfl, rfl, rfl⟩

/-- C4, amended.  Every `AlpacaClient` operation invoked while
credentials are not configured attempts no network call, never raises, and
fails fast returning `None` (`False` for the cancel operations): the
result is `(none, [])` resp. `(false, [])`, the second component being the
trace of attempted HTTP requests. -/
theorem client_unconfigured_no_network (c : Creds) (net : Net)
    (h : is_configured c = false) :
    client_get_account c net = (none, []) ∧
    client_get_positions c net = (none, []) ∧
    (∀ symbol, client_get_position c net symbol = (none, [])) ∧
    (∀ status lim, client_get_orders c net status lim = (none, [])) ∧
    (∀ order_id, client_get_order c net order_id = (none, [])) ∧
    (∀ order_data, client_submit_order c net order_data = (none, [])) ∧
    (∀ order_id, client_cancel_order c net order_id = (false, [])) ∧
    client_cancel_all_orders c net = (false, []) := by
  refine ⟨?_, ?_, ?_, ?_, ?_, ?_, ?_, ?_⟩ <;>
    intros <;>
    simp [client_get_account, client_get_positions, client_get_position,
      client_get_orders, client_get_order, client_submit_order,
      client_cancel_order, client_cancel_all_orders, h]

/-- Witness for `client_unconfigured_no_network` at entirely unconfigured
credentials and an always-raising transport. -/
theorem client_unconfigured_no_network_witness :
    client_get_account credsNone netRaises = (none, []) ∧
    client_submit_order credsNone netRaises
        { symbol := "AAPL", side := "buy", time_in_force := "day",
          qty := some "1" } = (none, []) ∧
    client_cancel_order credsNone netRaises "42" = (false, []) :=
  ⟨(client_unconfigured_no_network credsNone netRaises rfl).1,
   (client_unconfigured_no_network credsNone netRaises rfl).2.2.2.2.2.1
     { symbol := "AAPL", side := "buy", time_in_force := "day",
       qty := some "1" },
   (client_unconfigured_no_network credsNone netRaises rfl).2.2.2.2.2.2.1 "42"⟩

/-! ## C2: per-action, independent dispatch -/

theorem executeFrom_length (env : GatewayEnv) (i : Nat) (l : List Action) :
    (executeFrom env i l).length = l.length := by
  induction l generalizing i with
  | nil => rfl
  | cons a rest ih => simp [executeFrom, ih]

theorem executeFrom_getD (env : GatewayEnv) (i j : Nat) (l : List Action)
    (h : j < l.length) :
    (executeFrom env i l).getD j ("", []) =
      dispatchOne env (i + j) (l.getD j .get_account_info) := by
  induction l generalizing i j with
  | nil => simp at h
  | cons a rest ih =>
    cases j with
    | zero => simp [executeFrom]
    | succ j' =>
      have hj : j' < rest.length := by simpa using h
      have := ih (i + 1) j' hj
      simp only [executeFrom, List.getD_cons_succ, this]
      congr 1
      omega

/-- C2.  `execute_actions` records exactly one entry per input action,
in order: the entry at index `i` depends only on the action at index `i`
(so an exception raised while executing one action is caught there,
recorded as an error entry for that action alone, and all remaining
actions are still executed).  A normal return (success or structured
error dict) is keyed `"{action_name}_{i}"`; a caught exception is keyed
`"{action_name}_{i}_error"` (see `dispatchOne`).  In particular, for two
buy actions where the first succeeds and a later one fails, both outcomes
appear, independently keyed, with no rollback of the first. -/
theorem execute_actions_independent (env : GatewayEnv) (acts : List Action) :
    (execute_actions env acts).length = acts.length ∧
    (∀ i, i < acts.length →
        (execute_actions env acts).getD i ("", []) =
          dispatchOne env i (acts.getD i .get_account_info)) ∧
    (∀ r1 r2, env.buyResult "AAPL" 10 = .ok r1 →
        env.buyResult "MSFT" 5 = .ok r2 →
        execute_actions env [.buy_stock "AAPL" 10, .buy_stock "MSFT" 5] =
          [("buy_stock_0", r1), ("buy_stock_1", r2)]) ∧
    (∀ e r2, env.buyResult "AAPL" 10 = .error e →
        env.buyResult "MSFT" 5 = .ok r2 →
        execute_actions env [.buy_stock "AAPL" 10, .buy_stock "MSFT" 5] =
          [("buy_stock_0_error", errDict ("Error executing buy_stock: " ++ e)),
           ("buy_stock_1", r2)]) := by
  refine ⟨executeFrom_length env 0 acts, ?_, ?_, ?_⟩
  · intro i hi
    simpa using executeFrom_getD env 0 i acts hi
  · intro r1 r2 h1 h2
    simp only [execute_actions, executeFrom, dispatchOne,
      show pyStripUpper "AAPL" = "AAPL" from rfl,
      show pyStripUpper "MSFT" = "MSFT" from rfl, h1, h2]
    simp
    exact ⟨rfl, rfl⟩
  · intro e r2 h1 h2
    simp only [execute_actions, executeFrom, dispatchOne,
      show pyStripUpper "AAPL" = "AAPL" from rfl,
      show pyStripUpper "MSFT" = "MSFT" from rfl, h1, h2]
    simp
    exact ⟨rfl, rfl⟩

/-- Witness for `execute_actions_independent`: the two scenario conjuncts
at concrete gateways (every call succeeding, resp. the AAPL buy raising),
and the per-index conjunct at index 0. -/
theorem execute_actions_independent_witness :
    execute_actions envEcho [.buy_stock "AAPL" 10, .buy_stock "MSFT" 5] =
      [("buy_stock_0", [("status", "success"), ("symbol", "AAPL")]),
       ("buy_stock_1", [("status", "success"), ("symbol", "MSFT")])] ∧
    execute_actions envAaplRaises
        [.buy_stock "AAPL" 10, .buy_stock "MSFT" 5] =
      [("buy_stock_0_error", errDict "Error executing buy_stock: boom"),
       ("buy_stock_1", [("status", "success")])] ∧
    (execute_actions envEcho [.buy_stock "AAPL" 10, .buy_stock "MSFT" 5]).getD
        0 ("", []) =
      dispatchOne envEcho 0 (.buy_stock "AAPL" 10) :=
  ⟨(execute_actions_independent envEcho
      [.buy_stock "AAPL" 10, .buy_stock "MSFT" 5]).2.2.1
      [("status", "success"), ("symbol", "AAPL")]
      [("status", "success"), ("symbol", "MSFT")] rfl rfl,
   (execute_actions_independent envAaplRaises
      [.buy_stock "AAPL" 10, .buy_stock "MSFT" 5]).2.2.2 "boom"
      [("status", "success")] (by rfl) (by rfl),
   (execute_actions_independent envEcho
      [.buy_stock "AAPL" 10, .buy_stock "MSFT" 5]).2.1 0 (by norm_num)⟩

/-! ## C5: market-data timeframe order -/

/-- C5, counterexample.  The claim says the normalizer attempts
progressively coarser timeframes "in the order intraday, then hourly,
then daily".  On an environment where every timeframe has data (daily
close 1, hourly close 2, minute close 3), `get_market_data` makes exactly
one request — the *daily* one — and reports the daily close 1, not the
intraday close 3: the source order (ai_broker.py line 90) is
`[TimeFrame.Day, TimeFrame.Hour, TimeFrame.Minute]`. -/
theorem market_data_order_counterexample :
    (get_market_data_symbol envAllTimeframes "AAPL").2 =
      [{ symbol := "AAPL", timeframe := .Day, startDaysAgo := 30, lim := 1 }] ∧
    (get_market_data_symbol envAllTimeframes "AAPL").1.price = some 1 ∧
    (get_market_data_symbol envAllTimeframes "AAPL").1.price ≠ some 3 ∧
    ((get_market_data_symbol envAllTimeframes "AAPL").2.map
        BarsReq.timeframe).head? ≠ some TF.Minute :=
  ⟨rfl, rfl, by decide, by decide⟩

/-- C5, amended, step lemma: one iteration of the timeframe loop in
terms of `specAttemptBar`. -/
theorem tryTimeframes_nil (env : DataEnv) (symbol : String) :
    tryTimeframes env symbol [] = (none, []) := rfl

theorem tryTimeframes_cons (env : DataEnv) (symbol : String) (tf : TF)
    (rest : List TF) :
    tryTimeframes env symbol (tf :: rest) =
      match specAttemptBar env symbol tf with
      | some b => (some b, [⟨symbol, tf, 30, 1⟩])
      | none =>
        ((tryTimeframes env symbol rest).1,
          ⟨symbol, tf, 30, 1⟩ :: (tryTimeframes env symbol rest).2) := by
  rw [tryTimeframes]
  unfold specAttemptBar
  cases hE : env ⟨symbol, tf, 30, 1⟩ with
  | bars l => cases hL : l.getLast? <;> simp [hE, hL]
  | noSymbol => simp [hE]
  | raises m => simp [hE]

/-- C5, amended.  For every symbol, the normalizer queries bar data
over a fixed 30-day lookback window with limit 1, attempting timeframes
in the order daily, then hourly, then minute (intraday), and stops at the
first attempt that returns a non-empty bar list for the symbol, using its
latest bar. -/
theorem market_data_tries_day_hour_minute (env : DataEnv) (symbol : String) :
    get_market_data_symbol env symbol =
      ((specResultBar env symbol).elim noDataRecord recordOfBar,
        (specTriedTFs env symbol).map fun tf =>
          { symbol := symbol, timeframe := tf, startDaysAgo := 30, lim := 1 }) ∧
    (∀ r ∈ (get_market_data_symbol env symbol).2,
        r.symbol = symbol ∧ r.startDaysAgo = 30 ∧ r.lim = 1) := by
  have hmain :
      get_market_data_symbol env symbol =
        ((specResultBar env symbol).elim noDataRecord recordOfBar,
          (specTriedTFs env symbol).map fun tf =>
            { symbol := symbol, timeframe := tf, startDaysAgo := 30,
              lim := 1 }) := by
    unfold get_market_data_symbol tfOrder specResultBar specTriedTFs
    simp only [tryTimeframes_cons, tryTimeframes_nil]
    cases hD : specAttemptBar env symbol TF.Day <;>
      cases hH : specAttemptBar env symbol TF.Hour <;>
        cases hM : specAttemptBar env symbol TF.Minute <;>
          simp [hD, hH, hM]
  refine ⟨hmain, ?_⟩
  intro r hr
  rw [hmain] at hr
  simp only [List.mem_map] at hr
  obtain ⟨tf, _, rfl⟩ := hr
  exact ⟨rfl, rfl, rfl⟩

/-- Witness for `market_data_tries_day_hour_minute` at a concrete
environment on which every timeframe has data. -/
theorem market_data_tries_day_hour_minute_witness :
    (get_market_data_symbol envAllTimeframes "AAPL" =
      ((specResultBar envAllTimeframes "AAPL").elim noDataRecord recordOfBar,
        (specTriedTFs envAllTimeframes "AAPL").map fun tf =>
          { symbol := "AAPL", timeframe := tf, startDaysAgo := 30,
            lim := 1 })) ∧
    ((⟨"AAPL", TF.Day, 30, 1⟩ : BarsReq).symbol = "AAPL" ∧
      (⟨"AAPL", TF.Day, 30, 1⟩ : BarsReq).startDaysAgo = 30 ∧
      (⟨"AAPL", TF.Day, 30, 1⟩ : BarsReq).lim = 1) :=
  ⟨(market_data_tries_day_hour_minute envAllTimeframes "AAPL").1,
   (market_data_tries_day_hour_minute envAllTimeframes "AAPL").2
     ⟨"AAPL", TF.Day, 30, 1⟩
     (by
       rw [show (get_market_data_symbol envAllTimeframes "AAPL").2 =
         [⟨"AAPL", TF.Day, 30, 1⟩] from rfl]
       exact List.mem_singleton.mpr rfl)⟩

/-! ## Extractor classification lemmas -/

theorem buyOfLine_shape (l : List Char) (a : Action)
    (h : buyOfLine l = some a) :
    ∃ s q, buyCandidate l = some (s, q) ∧ a = .buy_stock s q ∧
      s ≠ "" ∧ 0 < q := by
  unfold buyOfLine at h
  split at h
  · rename_i sym qty heq
    split at h
    · rename_i hv
      rw [Option.some.injEq] at h
      exact ⟨sym, qty, heq, h.symm, hv⟩
    · cases h
  · cases h

theorem priceOfLine_shape (l : List Char) (a : Action)
    (h : priceOfLine l = some a) :
    ∃ s, a = .get_stock_price s := by
  unfold priceOfLine at h
  cases h5 : searchSeq pat5 l with
  | some gs =>
    rw [h5] at h
    dsimp only at h
    split at h
    · rw [Option.some.injEq] at h
      exact ⟨_, h.symm⟩
    · cases h
  | none =>
    rw [h5] at h
    dsimp only at h
    cases h6 : searchSeq pat6 l with
    | some gs =>
      rw [h6] at h
      dsimp only at h
      split at h
      · rw [Option.some.injEq] at h
        exact ⟨_, h.symm⟩
      · cases h
    | none => rw [h6] at h; cases h

theorem accountOfLine_shape (l : List Char) (a : Action)
    (h : accountOfLine l = some a) : a = .get_account_info := by
  unfold accountOfLine at h
  cases h7 : searchSeq pat7 l with
  | some gs =>
    rw [h7] at h
    rw [Option.some.injEq] at h
    exact h.symm
  | none => rw [h7] at h; cases h

theorem mem_actionsOfLine (l : List Char) (a : Action)
    (h : a ∈ actionsOfLine l) :
    buyOfLine (pyStripList l) = some a ∨
      priceOfLine (pyStripList l) = some a ∨
      accountOfLine (pyStripList l) = some a := by
  unfold actionsOfLine at h
  split at h
  · cases h
  · simp only [List.mem_append, Option.mem_toList, Option.mem_def] at h
    exact or_assoc.mp h

theorem mem_extractFromChars (r : List Char) (a : Action)
    (h : a ∈ extractFromChars r) :
    ∃ l, a ∈ actionsOfLine l := by
  unfold extractFromChars at h
  split at h
  · cases h
  · simp only [List.mem_flatten, List.mem_map] at h
    obtain ⟨as, ⟨l, _, rfl⟩, ha⟩ := h
    exact ⟨l, ha⟩

/-! ## C7: nonpositive buy quantities are dropped -/

/-- C7.  (1) Every `buy_stock` action the extractor emits has a
strictly positive quantity; (2) on any line whose first matching buy
pattern parses to a quantity `≤ 0` (the pattern digits can only yield
`0`, negative numbers never match `(\d+)`), the extractor emits no
`buy_stock` action for that line. -/
theorem extractor_buy_quantity_positive :
    (∀ response a, a ∈ extract_action_from_response response →
      ∀ s q, a = .buy_stock s q → 0 < q) ∧
    (∀ line s q, buyCandidate (pyStripList line) = some (s, q) → q ≤ 0 →
      (actionsOfLine line).countP (fun a => a.isBuy) = 0) := by
  constructor
  · intro response a ha s q heq
    subst heq
    obtain ⟨l, hl⟩ := mem_extractFromChars response.data _ ha
    rcases mem_actionsOfLine l _ hl with hb | hp | hacc
    · obtain ⟨s', q', _, heq', _, hq⟩ := buyOfLine_shape _ _ hb
      cases heq'
      exact hq
    · obtain ⟨s', heq'⟩ := priceOfLine_shape _ _ hp
      exact Action.noConfusion heq'
    · exact Action.noConfusion (accountOfLine_shape _ _ hacc)
  · intro line s q hc hq
    have hb : buyOfLine (pyStripList line) = none := by
      cases hbb : buyOfLine (pyStripList line) with
      | none => rfl
      | some a =>
        obtain ⟨s', q', hc', _, _, hq'⟩ := buyOfLine_shape _ _ hbb
        rw [hc] at hc'
        rw [Option.some.injEq, Prod.mk.injEq] at hc'
        obtain ⟨-, rfl⟩ := hc'
        exact absurd hq' (by omega)
    unfold actionsOfLine
    split
    · rfl
    · rw [List.countP_append, List.countP_append, hb]
      have hp : (priceOfLine (pyStripList line)).toList.countP
          (fun a => a.isBuy) = 0 := by
        cases hpp : priceOfLine (pyStripList line) with
        | none => rfl
        | some a =>
          obtain ⟨s', rfl⟩ := priceOfLine_shape _ _ hpp
          rfl
      have hacc : (accountOfLine (pyStripList line)).toList.countP
          (fun a => a.isBuy) = 0 := by
        cases hpp : accountOfLine (pyStripList line) with
        | none => rfl
        | some a =>
          have := accountOfLine_shape _ _ hpp
          subst this
          rfl
      simp [hp, hacc]

/-- Witness for `extractor_buy_quantity_positive`: part (1) at a concrete
response whose extraction contains `buy_stock("AAPL", 10)`, part (2) at
the concrete line `buy_stock("AAPL", 0)`. -/
theorem extractor_buy_quantity_positive_witness :
    (0 : Int) < 10 ∧
    (actionsOfLine "buy_stock(\"AAPL\", 0)".data).countP
        (fun a => a.isBuy) = 0 :=
  ⟨extractor_buy_quantity_positive.1
      "<actions_taken>buy_stock(\"AAPL\", 10)</actions_taken>"
      (.buy_stock "AAPL" 10)
      (by rw [show extract_action_from_response
            "<actions_taken>buy_stock(\"AAPL\", 10)</actions_taken>" =
            [Action.buy_stock "AAPL" 10] from rfl]; exact List.mem_singleton.mpr rfl)
      "AAPL" 10 rfl,
   extractor_buy_quantity_positive.2 "buy_stock(\"AAPL\", 0)".data
      "AAPL" 0 rfl (by omega)⟩

/-! ## C6: per-line action multiplicity -/

/-- C6, counterexample.  The claim says a line emits *at most one*
buy-or-price action.  The single line
`buy_stock("AAPL", 10) and get_stock_price("MSFT")` emits two of them —
one buy and one price — because the buy-pattern loop (ai_broker.py line
497) and the price-pattern loop (line 523) are checked independently, not
as one priority group. -/
theorem line_two_buy_price_counterexample :
    (actionsOfLine
        "buy_stock(\"AAPL\", 10) and get_stock_price(\"MSFT\")".data).countP
        (fun a => a.isBuy || a.isPrice) = 2 ∧
    extract_action_from_response
        "<actions_taken>buy_stock(\"AAPL\", 10) and get_stock_price(\"MSFT\")</actions_taken>" =
      [.buy_stock "AAPL" 10, .get_stock_price "MSFT"] :=
  ⟨rfl, rfl⟩

/-- C6, amended.  Every line of the actions section yields at most one
buy action (the first buy pattern, in the fixed order `0..4`, that matches
wins), independently at most one `get_stock_price` action (the first of
patterns `5, 6` that matches wins), and independently at most one
`get_account_info` action; these three checks are separate, so one line
can contribute up to one action *of each* kind. -/
theorem line_emits_at_most_one_of_each_kind (line : List Char) :
    (actionsOfLine line).countP (fun a => a.isBuy) ≤ 1 ∧
    (actionsOfLine line).countP (fun a => a.isPrice) ≤ 1 ∧
    (actionsOfLine line).countP (fun a => a.isAccount) ≤ 1 := by
  unfold actionsOfLine
  split
  · exact ⟨by simp, by simp, by simp⟩
  · have hbuy : ∀ a, buyOfLine (pyStripList line) = some a →
        a.isBuy = true ∧ a.isPrice = false ∧ a.isAccount = false := by
      intro a ha
      obtain ⟨s, q, _, rfl, _, _⟩ := buyOfLine_shape _ _ ha
      exact ⟨rfl, rfl, rfl⟩
    have hprice : ∀ a, priceOfLine (pyStripList line) = some a →
        a.isBuy = false ∧ a.isPrice = true ∧ a.isAccount = false := by
      intro a ha
      obtain ⟨s, rfl⟩ := priceOfLine_shape _ _ ha
      exact ⟨rfl, rfl, rfl⟩
    have hacc : ∀ a, accountOfLine (pyStripList line) = some a →
        a.isBuy = false ∧ a.isPrice = false ∧ a.isAccount = true := by
      intro a ha
      rw [accountOfLine_shape _ _ ha]
      exact ⟨rfl, rfl, rfl⟩
    refine ⟨?_, ?_, ?_⟩ <;>
      rw [List.countP_append, List.countP_append] <;>
      cases hb : buyOfLine (pyStripList line) <;>
      cases hp : priceOfLine (pyStripList line) <;>
      cases ha : accountOfLine (pyStripList line) <;>
      simp_all

/-! ## C1: extraction of `buy_stock("AAPL", 10)` -/

/-- C1, counterexample.  The claim quantifies over *every* input
containing the block `<actions_taken>buy_stock("AAPL", 10)</actions_taken>`.
The input below contains that block verbatim, yet the extractor returns
`[]`, because the non-greedy search (ai_broker.py line 467) parses only
the *first* `<actions_taken>…</actions_taken>` block, which here is
blank. -/
theorem contains_aapl_block_counterexample :
    ("<actions_taken>buy_stock(\"AAPL\", 10)</actions_taken>".data <:+:
        "<actions_taken>\n</actions_taken><actions_taken>buy_stock(\"AAPL\", 10)</actions_taken>".data) ∧
    extract_action_from_response
        "<actions_taken>\n</actions_taken><actions_taken>buy_stock(\"AAPL\", 10)</actions_taken>" =
      [] ∧
    extract_action_from_response
        "<actions_taken>\n</actions_taken><actions_taken>buy_stock(\"AAPL\", 10)</actions_taken>" ≠
      [.buy_stock "AAPL" 10] :=
  ⟨⟨"<actions_taken>\n</actions_taken>".data, [], by rfl⟩, rfl, by decide⟩

/-- C1, amended.  For every input string whose *first*
`<actions_taken>…</actions_taken>` block (the non-greedy leftmost match)
has content that strips to `buy_stock("AAPL", 10)`, the extractor returns
exactly `[{action: buy_stock, params: {symbol: "AAPL", quantity: 10}}]`. -/
theorem first_block_aapl_extracts (response : String)
    (gs : List (List Char))
    (h : searchSeq blockPattern response.data = some gs)
    (hs : pyStripList (gs.getD 0 []) = "buy_stock(\"AAPL\", 10)".data) :
    extract_action_from_response response = [.buy_stock "AAPL" 10] := by
  unfold extract_action_from_response extractFromChars
  rw [h]
  dsimp only
  rw [hs]
  rfl

/-- Witness for `first_block_aapl_extracts` at the one-block response. -/
theorem first_block_aapl_extracts_witness :
    extract_action_from_response
        "<actions_taken>buy_stock(\"AAPL\", 10)</actions_taken>" =
      [.buy_stock "AAPL" 10] :=
  first_block_aapl_extracts
    "<actions_taken>buy_stock(\"AAPL\", 10)</actions_taken>"
    ["buy_stock(\"AAPL\", 10)".data] rfl rfl

/-! ## C9: only the first block is parsed

The leftmost-match semantics of the block search is first characterized by
the direct functions `blockHere` / `findBlockSpec`, then shown stable
under appending text after a complete block. -/

theorem findSome?_option_map {α β γ : Type} (f : α → Option β) (g : β → γ)
    (l : List α) :
    (l.findSome? fun a => (f a).map g) = (l.findSome? f).map g := by
  induction l with
  | nil => simp
  | cons a t ih =>
    rw [List.findSome?_cons, List.findSome?_cons]
    cases f a <;> simp [ih]

theorem stripPrefixCS_eq_some (pre : List Char) :
    ∀ s r, stripPrefixCS pre s = some r → s = pre ++ r := by
  induction pre with
  | nil =>
    intro s r h
    rw [stripPrefixCS, Option.some.injEq] at h
    rw [h, List.nil_append]
  | cons a pt ih =>
    intro s r h
    cases s with
    | nil => cases h
    | cons b st =>
      rw [stripPrefixCS] at h
      split at h
      · rename_i hab
        rw [hab, ih st r h, List.cons_append]
      · cases h

theorem stripPrefixCS_self_append (pre r : List Char) :
    stripPrefixCS pre (pre ++ r) = some r := by
  induction pre with
  | nil => rfl
  | cons a pt ih =>
    rw [List.cons_append, stripPrefixCS]
    simpa using ih

theorem stripPrefixCS_append_right (pre s t r : List Char)
    (h : stripPrefixCS pre s = some r) :
    stripPrefixCS pre (s ++ t) = some (r ++ t) := by
  rw [stripPrefixCS_eq_some pre s r h, List.append_assoc]
  exact stripPrefixCS_self_append pre (r ++ t)

theorem stripPrefixCS_none_append (pre : List Char) :
    ∀ s t, pre.length ≤ s.length → stripPrefixCS pre s = none →
      stripPrefixCS pre (s ++ t) = none := by
  induction pre with
  | nil =>
    intro s t _ h
    rw [stripPrefixCS] at h
    cases h
  | cons a pt ih =>
    intro s t hlen h
    cases s with
    | nil => simp at hlen
    | cons b st =>
      rw [stripPrefixCS] at h
      rw [List.cons_append, stripPrefixCS]
      split at h
      · rename_i hab
        rw [if_pos hab]
        exact ih st t (by simpa using hlen) h
      · rename_i hab
        rw [if_neg hab]

theorem splitAtFirst_eq_some (pat : List Char) :
    ∀ s a b, splitAtFirst pat s = some (a, b) → s = a ++ pat ++ b := by
  intro s
  induction s with
  | nil =>
    intro a b h
    rw [splitAtFirst] at h
    cases hp : stripPrefixCS pat [] with
    | some r =>
      rw [hp] at h
      rw [Option.some.injEq, Prod.mk.injEq] at h
      obtain ⟨ha, hb⟩ := h
      subst ha
      subst hb
      simpa using stripPrefixCS_eq_some pat [] _ hp
    | none => rw [hp] at h; cases h
  | cons c t ih =>
    intro a b h
    rw [splitAtFirst] at h
    cases hp : stripPrefixCS pat (c :: t) with
    | some r =>
      rw [hp] at h
      rw [Option.some.injEq, Prod.mk.injEq] at h
      obtain ⟨ha, hb⟩ := h
      subst ha
      subst hb
      simpa using stripPrefixCS_eq_some pat (c :: t) _ hp
    | none =>
      rw [hp] at h
      dsimp only at h
      cases hq : splitAtFirst pat t with
      | none => rw [hq] at h; cases h
      | some q =>
        rw [hq] at h
        rw [Option.map_some', Option.some.injEq, Prod.mk.injEq] at h
        obtain ⟨ha, hb⟩ := h
        subst ha
        subst hb
        have := ih q.1 q.2 (by rw [hq])
        rw [List.cons_append, List.cons_append, ← this]

theorem splitAtFirst_append_right (pat : List Char) (hpat : pat ≠ []) :
    ∀ s t a b, splitAtFirst pat s = some (a, b) →
      splitAtFirst pat (s ++ t) = some (a, b ++ t) := by
  intro s
  induction s with
  | nil =>
    intro t a b h
    rw [splitAtFirst] at h
    cases hp : stripPrefixCS pat [] with
    | some r =>
      have h2 := stripPrefixCS_eq_some pat [] r hp
      have h3 : pat = [] := by
        have h4 := congrArg List.length h2
        simp only [List.length_nil, List.length_append] at h4
        rw [← List.length_eq_zero]
        omega
      exact absurd h3 hpat
    | none => rw [hp] at h; cases h
  | cons c s2 ih =>
    intro t a b h
    rw [splitAtFirst] at h
    rw [List.cons_append, splitAtFirst]
    cases hp : stripPrefixCS pat (c :: s2) with
    | some r =>
      rw [hp] at h
      rw [Option.some.injEq, Prod.mk.injEq] at h
      obtain ⟨ha, hb⟩ := h
      subst ha
      subst hb
      have hp2 := stripPrefixCS_append_right pat (c :: s2) t _ hp
      rw [List.cons_append] at hp2
      rw [hp2]
    | none =>
      rw [hp] at h
      dsimp only at h
      cases hq : splitAtFirst pat s2 with
      | none => rw [hq] at h; cases h
      | some q =>
        rw [hq] at h
        rw [Option.map_some', Option.some.injEq, Prod.mk.injEq] at h
        obtain ⟨ha, hb⟩ := h
        subst ha
        subst hb
        have hlen : pat.length ≤ (c :: s2).length := by
          have h3 := splitAtFirst_eq_some pat s2 q.1 q.2 hq
          have h4 : s2.length = q.1.length + pat.length + q.2.length := by
            rw [h3]
            simp only [List.length_append]
          simp only [List.length_cons]
          omega
        have hp3 := stripPrefixCS_none_append pat (c :: s2) t hlen hp
        rw [List.cons_append] at hp3
        rw [hp3]
        simp only [ih t q.1 q.2 hq, Option.map_some']

theorem splitAtFirst_isSome_of_strip (pat s : List Char)
    (h : (stripPrefixCS pat s).isSome) : (splitAtFirst pat s).isSome := by
  cases s with
  | nil =>
    rw [splitAtFirst]
    cases hp : stripPrefixCS pat [] with
    | some r => rfl
    | none => rw [hp] at h; cases h
  | cons c t =>
    rw [splitAtFirst]
    cases hp : stripPrefixCS pat (c :: t) with
    | some r => rfl
    | none => rw [hp] at h; cases h

theorem splitAtFirst_isSome_of_infix (pat : List Char) :
    ∀ a b, (splitAtFirst pat (a ++ pat ++ b)).isSome := by
  intro a
  induction a with
  | nil =>
    intro b
    rw [List.nil_append]
    exact splitAtFirst_isSome_of_strip pat (pat ++ b)
      (by rw [stripPrefixCS_self_append]; rfl)
  | cons c a2 ih =>
    intro b
    rw [List.cons_append, List.cons_append, splitAtFirst]
    cases hp : stripPrefixCS pat (c :: (a2 ++ pat ++ b)) with
    | some r => rfl
    | none =>
      have h2 := ih b
      cases hq : splitAtFirst pat (a2 ++ pat ++ b) with
      | none => rw [hq] at h2; cases h2
      | some q => rfl

theorem matchSeq_close (x : List Char) :
    matchSeq [.lit closeTag] x =
      match stripPrefixCS closeTag x with
      | some _ => some []
      | none => none := by
  cases hp : stripPrefixCS closeTag x with
  | some r =>
    rw [matchSeq]
    rw [show RItem.candidates (.lit closeTag) x = [(x.take closeTag.length, r)]
      from by simp [RItem.candidates, hp]]
    rw [List.findSome?_cons]
    rfl
  | none =>
    rw [matchSeq]
    rw [show RItem.candidates (.lit closeTag) x = []
      from by simp [RItem.candidates, hp]]
    rfl

theorem matchSeq_grp_close :
    ∀ r, matchSeq [.grpStarL isDotAll, .lit closeTag] r =
      (splitAtFirst closeTag r).map (fun q => [q.1]) := by
  intro r
  induction r with
  | nil => rfl
  | cons c t ih =>
    rw [matchSeq]
    rw [show RItem.candidates (.grpStarL isDotAll) (c :: t) =
        ([], c :: t) :: (splitsAsc isDotAll t).map (fun q => (c :: q.1, q.2))
      from by simp [RItem.candidates, splitsAsc, isDotAll]]
    rw [List.findSome?_cons]
    rw [splitAtFirst]
    cases hp : stripPrefixCS closeTag (c :: t) with
    | some r2 =>
      have hhead : matchSeq [.lit closeTag] (c :: t) = some [] := by
        rw [matchSeq_close, hp]
      simp [hhead, RItem.isGroup]
    | none =>
      have hhead : matchSeq [.lit closeTag] (c :: t) = none := by
        rw [matchSeq_close, hp]
      dsimp only
      simp only [hhead, Option.map_none']
      rw [List.findSome?_map]
      have key : ∀ q : List Char × List Char,
          ((fun q : List Char × List Char =>
              (matchSeq [.lit closeTag] q.2).map fun gs =>
                if (RItem.grpStarL isDotAll).isGroup then q.1 :: gs else gs) ∘
            fun q : List Char × List Char => (c :: q.1, q.2)) q =
          ((matchSeq [.lit closeTag] q.2).map fun gs => q.1 :: gs).map
            (fun l => match l with
              | [] => ([] : List (List Char))
              | x :: xs => (c :: x) :: xs) := by
        intro q
        dsimp only [Function.comp, RItem.isGroup]
        cases matchSeq [.lit closeTag] q.2 <;> rfl
      rw [funext key]
      rw [findSome?_option_map]
      have hm : List.findSome?
          (fun q : List Char × List Char =>
            (matchSeq [.lit closeTag] q.2).map fun gs => q.1 :: gs)
          (splitsAsc isDotAll t) =
          matchSeq [.grpStarL isDotAll, .lit closeTag] t := rfl
      rw [hm, ih]
      cases splitAtFirst closeTag t <;> rfl

theorem matchSeq_block (s : List Char) :
    matchSeq blockPattern s = (blockHere s).map (fun inner => [inner]) := by
  unfold blockPattern blockHere
  cases hp : stripPrefixCS openTag s with
  | none =>
    rw [matchSeq]
    rw [show RItem.candidates (.lit openTag) s = []
      from by simp [RItem.candidates, hp]]
    rfl
  | some r =>
    rw [matchSeq]
    rw [show RItem.candidates (.lit openTag) s = [(s.take openTag.length, r)]
      from by simp [RItem.candidates, hp]]
    rw [List.findSome?_cons]
    dsimp only [RItem.isGroup]
    rw [matchSeq_grp_close]
    cases hsp : splitAtFirst closeTag r with
    | none => rfl
    | some q => rfl

theorem searchSeq_block :
    ∀ s, searchSeq blockPattern s = (findBlockSpec s).map (fun inner => [inner]) := by
  intro s
  induction s with
  | nil => rfl
  | cons c t ih =>
    rw [searchSeq, matchSeq_block, findBlockSpec]
    cases hb : blockHere (c :: t) with
    | some i => rfl
    | none => simpa using ih

theorem findBlockSpec_decomp :
    ∀ s inner, findBlockSpec s = some inner →
      ∃ u v, s = u ++ openTag ++ inner ++ closeTag ++ v := by
  intro s
  induction s with
  | nil => intro inner h; cases h
  | cons c t ih =>
    intro inner h
    rw [findBlockSpec] at h
    cases hb : blockHere (c :: t) with
    | some i =>
      rw [hb] at h
      rw [Option.some.injEq] at h
      subst h
      unfold blockHere at hb
      cases hp : stripPrefixCS openTag (c :: t) with
      | none => rw [hp] at hb; cases hb
      | some r =>
        rw [hp] at hb
        dsimp only at hb
        cases hsp : splitAtFirst closeTag r with
        | none => rw [hsp] at hb; cases hb
        | some q =>
          obtain ⟨q1, q2⟩ := q
          rw [hsp] at hb
          rw [Option.map_some', Option.some.injEq] at hb
          dsimp only at hb
          have h2 := stripPrefixCS_eq_some _ _ _ hp
          have h3 := splitAtFirst_eq_some _ _ _ _ hsp
          refine ⟨[], q2, ?_⟩
          rw [h2, h3, ← hb]
          simp [List.append_assoc]
    | none =>
      rw [hb] at h
      obtain ⟨u, v, huv⟩ := ih inner h
      exact ⟨c :: u, v, by rw [huv]; rfl⟩

theorem closeTag_found_after_open (s2 inner r : List Char) (c : Char)
    (hdec : ∃ u v, s2 = u ++ openTag ++ inner ++ closeTag ++ v)
    (hp : stripPrefixCS openTag (c :: s2) = some r) :
    (splitAtFirst closeTag r).isSome := by
  obtain ⟨u, v, huv⟩ := hdec
  have h2 := stripPrefixCS_eq_some _ _ _ hp
  have hw : openTag ++ r = c :: ((((u ++ openTag) ++ inner).drop 0) ++
      (closeTag ++ v)) := by
    rw [← h2, huv]
    simp [List.append_assoc]
  have ho : openTag.length = 15 := rfl
  have hr : r = (((u ++ openTag) ++ inner).drop 14) ++ (closeTag ++ v) := by
    have e3 : r = (openTag ++ r).drop 15 := by
      rw [show (15 : Nat) = openTag.length from rfl]
      exact (List.drop_left openTag r).symm
    rw [e3, hw]
    have hlen : 14 ≤ ((u ++ openTag) ++ inner).length := by
      simp only [List.length_append, ho]
      omega
    rw [List.drop_succ_cons]
    exact List.drop_append_of_le_length hlen
  rw [hr, ← List.append_assoc]
  exact splitAtFirst_isSome_of_infix closeTag _ v

theorem findBlockSpec_append :
    ∀ s t inner, findBlockSpec s = some inner →
      findBlockSpec (s ++ t) = some inner := by
  intro s
  induction s with
  | nil => intro t inner h; cases h
  | cons c s2 ih =>
    intro t inner h
    rw [findBlockSpec] at h
    rw [List.cons_append, findBlockSpec]
    cases hb : blockHere (c :: s2) with
    | some i =>
      rw [hb] at h
      rw [Option.some.injEq] at h
      have hb2 : blockHere (c :: (s2 ++ t)) = some i := by
        unfold blockHere at hb ⊢
        cases hp : stripPrefixCS openTag (c :: s2) with
        | none => rw [hp] at hb; cases hb
        | some r =>
          rw [hp] at hb
          dsimp only at hb
          cases hsp : splitAtFirst closeTag r with
          | none => rw [hsp] at hb; cases hb
          | some q =>
            obtain ⟨q1, q2⟩ := q
            rw [hsp] at hb
            rw [Option.map_some', Option.some.injEq] at hb
            dsimp only at hb
            have hp2 := stripPrefixCS_append_right openTag (c :: s2) t r hp
            rw [List.cons_append] at hp2
            rw [hp2]
            dsimp only
            have hsp2 := splitAtFirst_append_right closeTag (by decide)
              r t q1 q2 hsp
            rw [hsp2, Option.map_some', hb]
      rw [hb2, h]
    | none =>
      rw [hb] at h
      have hdec := findBlockSpec_decomp s2 inner h
      have hb2 : blockHere (c :: (s2 ++ t)) = none := by
        unfold blockHere at hb ⊢
        cases hp : stripPrefixCS openTag (c :: s2) with
        | some r =>
          rw [hp] at hb
          dsimp only at hb
          cases hsp : splitAtFirst closeTag r with
          | some q => rw [hsp, Option.map_some'] at hb; cases hb
          | none =>
            exfalso
            have := closeTag_found_after_open s2 inner r c hdec hp
            rw [hsp] at this
            cases this
        | none =>
          have hlen : openTag.length ≤ (c :: s2).length := by
            obtain ⟨u, v, huv⟩ := hdec
            have hlen2 : s2.length = u.length + openTag.length +
                inner.length + closeTag.length + v.length := by
              rw [huv]
              simp [List.length_append]
              omega
            simp only [List.length_cons]
            omega
          have hnone := stripPrefixCS_none_append openTag (c :: s2) t hlen hp
          rw [List.cons_append] at hnone
          rw [hnone]
      rw [hb2]
      exact ih t inner h

/-- C9.  Everything after a complete `<actions_taken>…</actions_taken>`
block is ignored: if the block search already matches within `s`, the
extraction of `s ++ t` equals the extraction of `s` for *every* `t` — in
particular, action lines in any later `<actions_taken>` block contribute
nothing. -/
theorem extractor_ignores_text_after_first_block (s t : String)
    (h : (searchSeq blockPattern s.data).isSome) :
    extract_action_from_response (s ++ t) = extract_action_from_response s := by
  unfold extract_action_from_response extractFromChars
  rw [String.data_append, searchSeq_block (s.data ++ t.data),
    searchSeq_block s.data]
  rw [searchSeq_block] at h
  cases hf : findBlockSpec s.data with
  | none => rw [hf] at h; cases h
  | some inner =>
    rw [findBlockSpec_append s.data t.data inner hf]

/-- Witness for `extractor_ignores_text_after_first_block`: appending a
second block (with a different buy action) changes nothing. -/
theorem extractor_ignores_text_after_first_block_witness :
    extract_action_from_response
        ("<actions_taken>buy_stock(\"AAPL\", 10)</actions_taken>" ++
          "<actions_taken>buy_stock(\"MSFT\", 5)</actions_taken>") =
      extract_action_from_response
        "<actions_taken>buy_stock(\"AAPL\", 10)</actions_taken>" :=
  extractor_ignores_text_after_first_block
    "<actions_taken>buy_stock(\"AAPL\", 10)</actions_taken>"
    "<actions_taken>buy_stock(\"MSFT\", 5)</actions_taken>" (by rfl)

/-! ## C8: credential encryption round trip -/

theorem b64idx_b64chr : ∀ v, v < 64 → b64idx (b64chr v) = some v := by
  decide

theorem b64chr_ne_pad : ∀ v, v < 64 → b64chr v ≠ '=' := by
  decide

theorem b64decode_b64encode :
    ∀ l : List Nat, (∀ x ∈ l, x < 256) → b64decode (b64encode l) = some l := by
  intro l
  induction l using b64encode.induct with
  | case1 => intro _; rfl
  | case2 a =>
    intro h
    have ha : a < 256 := h a (by simp)
    rw [b64encode, b64decode]
    rw [if_pos rfl, if_pos ⟨rfl, rfl⟩]
    rw [b64idx_b64chr (a / 4) (by omega), b64idx_b64chr (a % 4 * 16) (by omega)]
    dsimp only
    have : a / 4 * 4 + a % 4 * 16 / 16 = a := by omega
    rw [this]
  | case3 a b =>
    intro h
    have ha : a < 256 := h a (by simp)
    have hb : b < 256 := h b (by simp)
    rw [b64encode, b64decode]
    rw [if_neg (b64chr_ne_pad (b % 16 * 4) (by omega)), if_pos rfl, if_pos rfl]
    rw [b64idx_b64chr (a / 4) (by omega),
      b64idx_b64chr (a % 4 * 16 + b / 16) (by omega),
      b64idx_b64chr (b % 16 * 4) (by omega)]
    dsimp only
    have e1 : a / 4 * 4 + (a % 4 * 16 + b / 16) / 16 = a := by omega
    have e2 : (a % 4 * 16 + b / 16) % 16 * 16 + b % 16 * 4 / 4 = b := by omega
    rw [e1, e2]
  | case4 a b c rest ih =>
    intro h
    have ha : a < 256 := h a (by simp)
    have hb : b < 256 := h b (by simp)
    have hc : c < 256 := h c (by simp)
    rw [b64encode, b64decode]
    rw [if_neg (b64chr_ne_pad (b % 16 * 4 + c / 64) (by omega)),
      if_neg (b64chr_ne_pad (c % 64) (by omega))]
    rw [b64idx_b64chr (a / 4) (by omega),
      b64idx_b64chr (a % 4 * 16 + b / 16) (by omega),
      b64idx_b64chr (b % 16 * 4 + c / 64) (by omega),
      b64idx_b64chr (c % 64) (by omega)]
    rw [ih (fun x hx => h x (by simp [hx]))]
    dsimp only
    have e1 : a / 4 * 4 + (a % 4 * 16 + b / 16) / 16 = a := by omega
    have e2 : (a % 4 * 16 + b / 16) % 16 * 16 + (b % 16 * 4 + c / 64) / 4 = b := by
      omega
    have e3 : (b % 16 * 4 + c / 64) % 4 * 64 + c % 64 = c := by omega
    rw [e1, e2, e3]

theorem pkcs7_roundtrip (v : List Nat) : pkcs7unpad (pkcs7pad v) = some v := by
  unfold pkcs7pad pkcs7unpad
  have hm : v.length % 16 < 16 := Nat.mod_lt _ (by omega)
  obtain ⟨k2, hk2⟩ : ∃ k2, 16 - v.length % 16 = k2 + 1 := ⟨15 - v.length % 16, by omega⟩
  rw [hk2]
  have hlast : (v ++ List.replicate (k2 + 1) (k2 + 1)).getLast? = some (k2 + 1) := by
    rw [List.replicate_succ', ← List.append_assoc, List.getLast?_concat]
  rw [hlast]
  dsimp only
  have hlen : (v ++ List.replicate (k2 + 1) (k2 + 1)).length =
      v.length + (k2 + 1) := by
    simp [List.length_append]
  rw [if_neg]
  · rw [hlen]
    have hdrop :
        (v ++ List.replicate (k2 + 1) (k2 + 1)).drop (v.length + (k2 + 1) - (k2 + 1)) =
          List.replicate (k2 + 1) (k2 + 1) := by
      have : v.length + (k2 + 1) - (k2 + 1) = v.length := by omega
      rw [this]
      exact List.drop_left v _
    rw [hdrop]
    rw [if_pos]
    · have : v.length + (k2 + 1) - (k2 + 1) = v.length := by omega
      rw [this]
      rw [List.take_left]
    · simp [List.all_eq_true, List.mem_replicate]
  · rw [hlen]
    push_neg
    refine ⟨by omega, by omega, by omega⟩

theorem chunks16_flatten (l : List Nat) : (chunks16 l).flatten = l := by
  induction l using chunks16.induct with
  | case1 => rw [chunks16]; simp
  | case2 x hx ih =>
    rw [chunks16]
    rw [dif_neg hx]
    rw [List.flatten_cons, ih, List.take_append_drop]

theorem chunks16_mem_length (l : List Nat) (hl : l.length % 16 = 0) :
    ∀ c ∈ chunks16 l, c.length = 16 := by
  induction l using chunks16.induct with
  | case1 => intro c hc; rw [chunks16] at hc; simp at hc
  | case2 x hx ih =>
    intro c hc
    rw [chunks16, dif_neg hx] at hc
    have hxlen : 16 ≤ x.length := by
      have : 0 < x.length := List.length_pos.mpr hx
      omega
    rcases List.mem_cons.mp hc with rfl | hc2
    · rw [List.length_take]
      omega
    · exact ih (by rw [List.length_drop]; omega) c hc2

theorem chunks16_mem_subset (l : List Nat) :
    ∀ c ∈ chunks16 l, ∀ x ∈ c, x ∈ l := by
  induction l using chunks16.induct with
  | case1 => intro c hc; rw [chunks16] at hc; simp at hc
  | case2 x hx ih =>
    intro c hc y hy
    rw [chunks16, dif_neg hx] at hc
    rcases List.mem_cons.mp hc with rfl | hc2
    · exact List.take_subset 16 x hy
    · exact List.drop_subset 16 x (ih c hc2 y hy)

theorem chunks16_of_blocks :
    ∀ bs : List (List Nat), (∀ b ∈ bs, b.length = 16) →
      chunks16 bs.flatten = bs := by
  intro bs
  induction bs with
  | nil => intro _; rw [List.flatten_nil, chunks16]; simp
  | cons b rest ih =>
    intro h
    have hb : b.length = 16 := h b (by simp)
    rw [List.flatten_cons, chunks16]
    rw [dif_neg (by
      intro he
      have := congrArg List.length he
      simp [List.length_append, hb] at this)]
    rw [List.take_left' hb, List.drop_left' hb]
    rw [ih (fun x hx => h x (by simp [hx]))]

theorem xorBytes_length (a b : List Nat) :
    (xorBytes a b).length = min a.length b.length := by
  simp [xorBytes]

theorem xorBytes_cancel :
    ∀ a p : List Nat, a.length ≤ p.length → xorBytes (xorBytes a p) p = a := by
  intro a
  induction a with
  | nil => intro p _; rfl
  | cons x a2 ih =>
    intro p hlen
    cases p with
    | nil => simp at hlen
    | cons y p2 =>
      show (x ^^^ y ^^^ y) :: xorBytes (xorBytes a2 p2) p2 = x :: a2
      rw [Nat.xor_cancel_right, ih p2 (by simpa using hlen)]

theorem xorBytes_bytes :
    ∀ a b : List Nat, (∀ x ∈ a, x < 256) → (∀ x ∈ b, x < 256) →
      ∀ x ∈ xorBytes a b, x < 256 := by
  intro a
  induction a with
  | nil => intro b _ _ x hx; simp [xorBytes] at hx
  | cons u a2 ih =>
    intro b ha hb x hx
    cases b with
    | nil => simp [xorBytes] at hx
    | cons v b2 =>
      rcases List.mem_cons.mp hx with rfl | hx2
      · have h256 : (256 : Nat) = 2 ^ 8 := by norm_num
        rw [h256]
        exact Nat.xor_lt_two_pow (by rw [← h256]; exact ha u (by simp))
          (by rw [← h256]; exact hb v (by simp))
      · exact ih b2 (fun z hz => ha z (by simp [hz]))
          (fun z hz => hb z (by simp [hz])) x hx2

theorem cbcEncBlocks_mem_length (E : List Nat → List Nat)
    (hE : ∀ blk, blk.length = 16 → (E blk).length = 16) :
    ∀ blocks prev, (∀ b ∈ blocks, b.length = 16) → prev.length = 16 →
      ∀ cb ∈ cbcEncBlocks E prev blocks, cb.length = 16 := by
  intro blocks
  induction blocks with
  | nil => intro prev _ _ cb hcb; simp [cbcEncBlocks] at hcb
  | cons b rest ih =>
    intro prev hb hp cb hcb
    rw [cbcEncBlocks] at hcb
    have hxlen : (xorBytes b prev).length = 16 := by
      rw [xorBytes_length, hb b (by simp), hp]
      simp
    have hclen : (E (xorBytes b prev)).length = 16 := hE _ hxlen
    rcases List.mem_cons.mp hcb with rfl | hcb2
    · exact hclen
    · exact ih (E (xorBytes b prev)) (fun z hz => hb z (by simp [hz]))
        hclen cb hcb2

theorem cbcEncBlocks_bytes (E : List Nat → List Nat)
    (hE : ∀ blk, blk.length = 16 → (E blk).length = 16)
    (hEb : ∀ blk, blk.length = 16 → (∀ x ∈ blk, x < 256) →
      ∀ x ∈ E blk, x < 256) :
    ∀ blocks prev, (∀ b ∈ blocks, b.length = 16) →
      (∀ b ∈ blocks, ∀ x ∈ b, x < 256) → prev.length = 16 →
      (∀ x ∈ prev, x < 256) →
      ∀ cb ∈ cbcEncBlocks E prev blocks, ∀ x ∈ cb, x < 256 := by
  intro blocks
  induction blocks with
  | nil => intro prev _ _ _ _ cb hcb; simp [cbcEncBlocks] at hcb
  | cons b rest ih =>
    intro prev hb hbb hp hpb cb hcb
    rw [cbcEncBlocks] at hcb
    have hxlen : (xorBytes b prev).length = 16 := by
      rw [xorBytes_length, hb b (by simp), hp]
      simp
    have hxb : ∀ x ∈ xorBytes b prev, x < 256 :=
      xorBytes_bytes b prev (hbb b (by simp)) hpb
    have hcbytes : ∀ x ∈ E (xorBytes b prev), x < 256 := hEb _ hxlen hxb
    rcases List.mem_cons.mp hcb with rfl | hcb2
    · exact hcbytes
    · exact ih (E (xorBytes b prev)) (fun z hz => hb z (by simp [hz]))
        (fun z hz => hbb z (by simp [hz])) (hE _ hxlen) hcbytes cb hcb2

theorem cbc_roundtrip (E D : List Nat → List Nat)
    (hED : ∀ blk, blk.length = 16 → D (E blk) = blk)
    (hE : ∀ blk, blk.length = 16 → (E blk).length = 16) :
    ∀ blocks prev, (∀ b ∈ blocks, b.length = 16) → prev.length = 16 →
      cbcDecBlocks D prev (cbcEncBlocks E prev blocks) = blocks := by
  intro blocks
  induction blocks with
  | nil => intro prev _ _; rfl
  | cons b rest ih =>
    intro prev hb hp
    rw [cbcEncBlocks]
    rw [cbcDecBlocks]
    have hxlen : (xorBytes b prev).length = 16 := by
      rw [xorBytes_length, hb b (by simp), hp]
      simp
    rw [hED _ hxlen]
    rw [xorBytes_cancel b prev (by rw [hb b (by simp), hp])]
    rw [ih (E (xorBytes b prev)) (fun z hz => hb z (by simp [hz])) (hE _ hxlen)]

theorem flatten_length_mod16 :
    ∀ bs : List (List Nat), (∀ b ∈ bs, b.length = 16) →
      bs.flatten.length % 16 = 0 := by
  intro bs
  induction bs with
  | nil => intro _; rfl
  | cons b rest ih =>
    intro h
    rw [List.flatten_cons, List.length_append, h b (by simp)]
    have := ih (fun z hz => h z (by simp [hz]))
    omega

/-- C8.  `ConfigManager._encrypt_value` followed by
`ConfigManager._decrypt_value` with the same key recovers the plaintext
exactly.  The plaintext is the credential string's byte sequence; the
AES-256 block transformation delivered by the external crypto library for
that key is an abstract pair `(E, D)` with the cipher's defining
properties (`D ∘ E = id` on 16-byte blocks, 16-byte byte-valued
output); the random IV is any 16-byte value. -/
theorem encrypt_then_decrypt_roundtrip (E D : List Nat → List Nat)
    (hED : ∀ blk, blk.length = 16 → D (E blk) = blk)
    (hE : ∀ blk, blk.length = 16 → (E blk).length = 16)
    (hEb : ∀ blk, blk.length = 16 → (∀ x ∈ blk, x < 256) →
      ∀ x ∈ E blk, x < 256)
    (iv value : List Nat) (hiv : iv.length = 16)
    (hivb : ∀ x ∈ iv, x < 256) (hvb : ∀ x ∈ value, x < 256) :
    decrypt_value D (encrypt_value E iv value) = some value := by
  unfold encrypt_value decrypt_value
  have hpadlen : (pkcs7pad value).length % 16 = 0 := by
    unfold pkcs7pad
    simp only [List.length_append, List.length_replicate]
    omega
  have hpadb : ∀ x ∈ pkcs7pad value, x < 256 := by
    intro x hx
    unfold pkcs7pad at hx
    rcases List.mem_append.mp hx with hx1 | hx2
    · exact hvb x hx1
    · have := List.eq_of_mem_replicate hx2
      omega
  have hblocks16 : ∀ b ∈ chunks16 (pkcs7pad value), b.length = 16 :=
    chunks16_mem_length _ hpadlen
  have hblocksb : ∀ b ∈ chunks16 (pkcs7pad value), ∀ x ∈ b, x < 256 :=
    fun b hb x hx => hpadb x (chunks16_mem_subset _ b hb x hx)
  have hctlen16 : ∀ cb ∈ cbcEncBlocks E iv (chunks16 (pkcs7pad value)),
      cb.length = 16 :=
    cbcEncBlocks_mem_length E hE _ iv hblocks16 hiv
  have hctb : ∀ x ∈ (cbcEncBlocks E iv (chunks16 (pkcs7pad value))).flatten,
      x < 256 := by
    intro x hx
    obtain ⟨cb, hcb, hxcb⟩ := List.mem_flatten.mp hx
    exact cbcEncBlocks_bytes E hE hEb _ iv hblocks16 hblocksb hiv hivb
      cb hcb x hxcb
  rw [b64decode_b64encode _ (by
    intro x hx
    rcases List.mem_append.mp hx with hx1 | hx2
    · exact hivb x hx1
    · exact hctb x hx2)]
  dsimp only
  rw [List.take_left' hiv, List.drop_left' hiv]
  rw [if_pos (flatten_length_mod16 _ hctlen16)]
  rw [chunks16_of_blocks _ hctlen16]
  rw [cbc_roundtrip E D hED hE _ iv hblocks16 hiv]
  rw [chunks16_flatten]
  exact pkcs7_roundtrip value

/-- Witness for `encrypt_then_decrypt_roundtrip`: the identity block
transformation (which satisfies the cipher hypotheses) on the bytes of
the string `Hello`, with a constant 16-byte IV. -/
theorem encrypt_then_decrypt_roundtrip_witness :
    decrypt_value id
        (encrypt_value id (List.replicate 16 7) [72, 101, 108, 108, 111]) =
      some [72, 101, 108, 108, 111] :=
  encrypt_then_decrypt_roundtrip id id (fun _ _ => rfl) (fun _ h => h)
    (fun _ _ hb => hb) (List.replicate 16 7) [72, 101, 108, 108, 111]
    (by simp) (by intro x hx; rw [List.eq_of_mem_replicate hx]; omega)
    (by decide)

end TradeForYou
















